import Mathlib

/-!
Verification of the bank-statement-analyzer extraction/normalization pipeline.

Strings from the Python source are modelled as `List Char`; Python `float`
values are modelled as exact rationals (`ℚ`), the standard idealization for
decimal currency strings; Python `None`/absent values are `Option`.
Each definition mirrors one function of the repository's source.
-/

set_option linter.unusedVariables false

namespace BankSpec

/-- A calendar date as produced by Python's `datetime.strptime`
(only the date fields are relevant to the pipeline). -/
structure PyDate where
  year : Nat
  month : Nat
  day : Nat
deriving DecidableEq, Repr

/-- Gregorian leap-year rule, as used by Python's `datetime` validation. -/
def isLeapYear (y : Nat) : Bool :=
  y % 4 == 0 && (y % 100 != 0 || y % 400 == 0)

/-- Number of days in a month, as used by Python's `datetime` validation. -/
def daysInMonth (y m : Nat) : Nat :=
  if m == 2 then (if isLeapYear y then 29 else 28)
  else if m == 4 || m == 6 || m == 9 || m == 11 then 30
  else 31

/-- Validity of a (year, month, day) triple for Python's `datetime`
constructor (`MINYEAR = 1`, `MAXYEAR = 9999`). -/
def validDate (y m d : Nat) : Bool :=
  1 ≤ y && y ≤ 9999 && 1 ≤ m && m ≤ 12 && 1 ≤ d && d ≤ daysInMonth y m

/-- ASCII decimal digit test (`[0-9]` in the source's regexes). -/
def isDigitCh (c : Char) : Bool :=
  '0' ≤ c && c ≤ '9'

/-- Numeric value of one decimal digit character. -/
def digitVal (c : Char) : Nat :=
  c.toNat - '0'.toNat

/-- Numeric value of a string of decimal digits. -/
def digitsVal (cs : List Char) : Nat :=
  cs.foldl (fun a c => a * 10 + digitVal c) 0

/-- All characters are decimal digits. -/
def allDigits (cs : List Char) : Bool :=
  cs.all isDigitCh

/-- Python's `float(s)` on an unsigned token: `digits`, `digits.digits`,
`digits.` or `.digits` (at least one digit); anything else raises
`ValueError`, modelled as `none`.  Exponents, `inf`/`nan`, `_` and
whitespace cannot occur in the strings this model is applied to
(they are removed by the source's cleaning regexes beforehand). -/
def unsignedPyFloat (cs : List Char) : Option ℚ :=
  match cs.splitOn '.' with
  | [intp] =>
      if !intp.isEmpty && allDigits intp then some (digitsVal intp : ℚ) else none
  | [intp, frac] =>
      if allDigits intp && allDigits frac && (!intp.isEmpty || !frac.isEmpty) then
        some (Rat.divInt (digitsVal intp * 10 ^ frac.length + digitsVal frac)
          (10 ^ frac.length))
      else none
  | _ => none

/-- Python's `float(s)` with an optional leading minus sign. -/
def pyFloatChars : List Char → Option ℚ
  | '-' :: rest => (unsignedPyFloat rest).map (fun q => -q)
  | cs => unsignedPyFloat cs

/-- Python whitespace recognized by `str.strip()` (ASCII fragment). -/
def isPySpace (c : Char) : Bool :=
  c == ' ' || c == '\t' || c == '\n' || c == '\r' || c == '\x0b' || c == '\x0c'

/-- Python's `str.strip()`. -/
def pyStrip (cs : List Char) : List Char :=
  ((cs.dropWhile isPySpace).reverse.dropWhile isPySpace).reverse

/-- The character class kept by `re.sub(r'[^0-9.\-()]', '', s)` in
`data_cleaning.parse_amount`. -/
def keepAmountChar (c : Char) : Bool :=
  isDigitCh c || c == '.' || c == '-' || c == '(' || c == ')'

/-- The residual string handed to `float(...)` by `data_cleaning.parse_amount`:
strip all characters outside `[0-9.\-()]`; if both parentheses are present,
remove every parenthesis and prepend a minus. -/
def cleanedAmount (cs : List Char) : List Char :=
  let clean := cs.filter keepAmountChar
  if clean.contains '(' && clean.contains ')' then
    '-' :: clean.filter (fun c => !(c == '(' || c == ')'))
  else clean

/-- `data_cleaning.parse_amount`: empty/whitespace input yields `0.0`;
otherwise `float(...)` on the cleaned residue, with `ValueError`
defaulting to `0.0`. -/
def parse_amount (cs : List Char) : ℚ :=
  if cs.isEmpty || (pyStrip cs).isEmpty then 0
  else (pyFloatChars (cleanedAmount cs)).getD 0

/-- `strptime` field `%d`: the regex `3[01]|[1-2]\d|0[1-9]|[1-9]`
matched against a whole component, i.e. one digit `1-9` or two digits
with value `1..31`. -/
def strptimeDay (cs : List Char) : Option Nat :=
  match cs with
  | [c] => if '1' ≤ c && c ≤ '9' then some (digitVal c) else none
  | [c1, c2] =>
      if isDigitCh c1 && isDigitCh c2 then
        let v := digitVal c1 * 10 + digitVal c2
        if 1 ≤ v && v ≤ 31 then some v else none
      else none
  | _ => none

/-- `strptime` field `%m`: the regex `1[0-2]|0[1-9]|[1-9]` matched against
a whole component, i.e. one digit `1-9` or two digits with value `1..12`. -/
def strptimeMonth (cs : List Char) : Option Nat :=
  match cs with
  | [c] => if '1' ≤ c && c ≤ '9' then some (digitVal c) else none
  | [c1, c2] =>
      if isDigitCh c1 && isDigitCh c2 then
        let v := digitVal c1 * 10 + digitVal c2
        if 1 ≤ v && v ≤ 12 then some v else none
      else none
  | _ => none

/-- `strptime` field `%Y`: exactly four decimal digits. -/
def strptimeYear (cs : List Char) : Option Nat :=
  if cs.length == 4 && allDigits cs then some (digitsVal cs) else none

/-- Field order of a purely numeric `strptime` format. -/
inductive DateOrder where
  | dmy
  | mdy
  | ymd
deriving DecidableEq, Repr

/-- `datetime.strptime(s, fmt)` for the five numeric formats used by
`data_cleaning.parse_date`: three numeric fields separated by a literal
delimiter, full-string match, followed by `datetime` range validation
(a `ValueError` at any point is modelled as `none`). -/
def strptimeNumeric (ord : DateOrder) (delim : Char) (cs : List Char) : Option PyDate :=
  match cs.splitOn delim with
  | [a, b, c] =>
      let fields : Option (Nat × Nat × Nat) :=
        match ord with
        | .dmy =>
            match strptimeDay a, strptimeMonth b, strptimeYear c with
            | some d, some m, some y => some (y, m, d)
            | _, _, _ => none
        | .mdy =>
            match strptimeMonth a, strptimeDay b, strptimeYear c with
            | some m, some d, some y => some (y, m, d)
            | _, _, _ => none
        | .ymd =>
            match strptimeYear a, strptimeMonth b, strptimeDay c with
            | some y, some m, some d => some (y, m, d)
            | _, _, _ => none
      match fields with
      | some (y, m, d) => if validDate y m d then some ⟨y, m, d⟩ else none
      | none => none
  | _ => none

/-- `data_cleaning.parse_date`: try `%d/%m/%Y`, `%m/%d/%Y`, `%Y-%m-%d`,
`%d-%m-%Y`, `%d.%m.%Y` in this order, returning the first success,
`None` if every format fails. -/
def parse_date (cs : List Char) : Option PyDate :=
  (strptimeNumeric .dmy '/' cs).orElse fun _ =>
  (strptimeNumeric .mdy '/' cs).orElse fun _ =>
  (strptimeNumeric .ymd '-' cs).orElse fun _ =>
  (strptimeNumeric .dmy '-' cs).orElse fun _ =>
  strptimeNumeric .dmy '.' cs

/-! ## Regex engine for the two transaction patterns

`transaction_analysis.parse_transactions_from_text` uses two `re` patterns in
which every quantifier applies to a single character class or literal, so a
faithful backtracking matcher can enumerate repeat counts directly.  Character
classes (`\s`, `\w`, letters) are modelled on their ASCII fragment, which is
exhaustive for the statement texts the source handles. -/

/-- One token of a pattern: a literal, an optional literal (`c?`, greedy), a
character class with a repeat range (`hi = none` means unbounded; `lazy`
distinguishes `+?` from `+`), capture-group delimiters, and `^` under
`re.MULTILINE`. -/
inductive RTok where
  | lit (c : Char)
  | opt (c : Char)
  | cls (p : Char → Bool) (lo : Nat) (hi : Option Nat) (lazy : Bool)
  | grpOpen (i : Nat)
  | grpClose (i : Nat)
  | bol

/-- Length of the maximal run of class-`p` characters starting at `pos`. -/
def maxRun (p : Char → Bool) (s : List Char) (pos : Nat) : Nat :=
  ((s.drop pos).takeWhile p).length

/-- Backtracking matcher: attempts to match the token list at position `pos`
of `s`, returning the end position and the captured group spans
`(index, start, stop)` of the first match in Python's backtracking order
(greedy classes try longest repeats first, lazy ones shortest first). -/
def matchToks (s : List Char) :
    List RTok → Nat → List (Nat × Nat) → List (Nat × Nat × Nat) →
    Option (Nat × List (Nat × Nat × Nat))
  | [], pos, _, caps => some (pos, caps)
  | .lit c :: rest, pos, opens, caps =>
      match (s.drop pos).head? with
      | some c' => if c' == c then matchToks s rest (pos + 1) opens caps else none
      | none => none
  | .opt c :: rest, pos, opens, caps =>
      match (s.drop pos).head? with
      | some c' =>
          if c' == c then
            match matchToks s rest (pos + 1) opens caps with
            | some r => some r
            | none => matchToks s rest pos opens caps
          else matchToks s rest pos opens caps
      | none => matchToks s rest pos opens caps
  | .cls p lo hi lz :: rest, pos, opens, caps =>
      let m := maxRun p s pos
      let hiB := min m (hi.getD m)
      if lo > hiB then none
      else
        (List.range (hiB - lo + 1)).findSome? fun j =>
          matchToks s rest (pos + (if lz then lo + j else hiB - j)) opens caps
  | .grpOpen i :: rest, pos, opens, caps =>
      matchToks s rest pos ((i, pos) :: opens) caps
  | .grpClose _ :: rest, pos, opens, caps =>
      match opens with
      | (j, st) :: opens' => matchToks s rest pos opens' ((j, st, pos) :: caps)
      | [] => none
  | .bol :: rest, pos, opens, caps =>
      if pos == 0 || decide (s.get? (pos - 1) = some '\n') then
        matchToks s rest pos opens caps
      else none

/-- `re.finditer` scanning: try each start position left to right; after a
match, resume at its end (our patterns never match the empty string, but
`max` keeps the scan advancing regardless, as Python does). -/
def reFindAllAux (s : List Char) (toks : List RTok) :
    Nat → Nat → List (List (Nat × Nat × Nat))
  | _, 0 => []
  | pos, fuel + 1 =>
      if pos > s.length then []
      else
        match matchToks s toks pos [] [] with
        | some (e, caps) => caps :: reFindAllAux s toks (max e (pos + 1)) fuel
        | none => reFindAllAux s toks (pos + 1) fuel

/-- `pattern.findall(s)`, as the list of capture-span records of each
non-overlapping match. -/
def reFindAll (toks : List RTok) (s : List Char) : List (List (Nat × Nat × Nat)) :=
  reFindAllAux s toks 0 (s.length + 2)

/-- The text of capture group `i` of one match. -/
def capGet (s : List Char) (caps : List (Nat × Nat × Nat)) (i : Nat) : List Char :=
  match caps.find? (fun t => t.1 == i) with
  | some (_, st, en) => (s.drop st).take (en - st)
  | none => []

/-- ASCII letter (`[A-Za-z]`). -/
def isAsciiAlpha (c : Char) : Bool :=
  ('A' ≤ c && c ≤ 'Z') || ('a' ≤ c && c ≤ 'z')

/-- `\w` (ASCII fragment). -/
def isWordCh (c : Char) : Bool :=
  isAsciiAlpha c || isDigitCh c || c == '_'

/-- The primary pattern's description class `[A-Za-z0-9 \-.,&]`. -/
def isDescCh (c : Char) : Bool :=
  isAsciiAlpha c || isDigitCh c || c == ' ' || c == '-' || c == '.' || c == ',' || c == '&'

/-- The secondary pattern's description class `[\w\s\-.,&]`. -/
def isWordSpCh (c : Char) : Bool :=
  isWordCh c || isPySpace c || c == '-' || c == '.' || c == ',' || c == '&'

/-- Amount digits-and-commas class `[\d,]`. -/
def isAmtCh (c : Char) : Bool :=
  isDigitCh c || c == ','

/-- Primary pattern `(\d{2}/\d{2}/\d{4})\s+([A-Za-z0-9 \-.,&]+?)\s+\$?([\d,]+\.\d{2})`. -/
def primaryToks : List RTok :=
  [.grpOpen 1, .cls isDigitCh 2 (some 2) false, .lit '/', .cls isDigitCh 2 (some 2) false,
   .lit '/', .cls isDigitCh 4 (some 4) false, .grpClose 1,
   .cls isPySpace 1 none false,
   .grpOpen 2, .cls isDescCh 1 none true, .grpClose 2,
   .cls isPySpace 1 none false,
   .opt '$',
   .grpOpen 3, .cls isAmtCh 1 none false, .lit '.', .cls isDigitCh 2 (some 2) false,
   .grpClose 3]

/-- Secondary pattern
`^(\d{1,2}\s+[A-Za-z]{3})\s+([\w\s\-.,&]+?)\s+(\$?[\d,]+\.\d{2})\s+(\$?[\d,]+\.\d{2})`
(compiled with `re.MULTILINE`). -/
def secondaryToks : List RTok :=
  [.bol,
   .grpOpen 1, .cls isDigitCh 1 (some 2) false, .cls isPySpace 1 none false,
   .cls isAsciiAlpha 3 (some 3) false, .grpClose 1,
   .cls isPySpace 1 none false,
   .grpOpen 2, .cls isWordSpCh 1 none true, .grpClose 2,
   .cls isPySpace 1 none false,
   .grpOpen 3, .opt '$', .cls isAmtCh 1 none false, .lit '.', .cls isDigitCh 2 (some 2) false,
   .grpClose 3,
   .cls isPySpace 1 none false,
   .grpOpen 4, .opt '$', .cls isAmtCh 1 none false, .lit '.', .cls isDigitCh 2 (some 2) false,
   .grpClose 4]

/-! ## The text ingestion path (`parse_transactions_from_text`) -/

/-- Month abbreviations recognized by `strptime`'s `%b` (C locale). -/
def monthAbbrevs : List (List Char) :=
  ["jan".data, "feb".data, "mar".data, "apr".data, "may".data, "jun".data,
   "jul".data, "aug".data, "sep".data, "oct".data, "nov".data, "dec".data]

/-- `strptime` field `%b`: case-insensitive month abbreviation. -/
def strptimeMonthAbbrev (cs : List Char) : Option Nat :=
  (monthAbbrevs.indexOf? (cs.map Char.toLower)).map (· + 1)

/-- Split on runs of whitespace (how `strptime` treats literal spaces in a
format; the inputs fed to it here never start or end with whitespace). -/
def splitWs (cs : List Char) : List (List Char) :=
  (cs.splitOnP isPySpace).filter (fun p => !p.isEmpty)

/-- Decimal digits of a number, as Python's string interpolation renders it. -/
def natDigits (n : Nat) : List Char :=
  Nat.toDigits 10 n

/-- `datetime.strptime(f"{date_str} {year}", "%d %b %Y")` from the secondary
strategy, `ValueError` modelled as `none`. -/
def strptimeShortDate (year : Nat) (dateStr : List Char) : Option PyDate :=
  match splitWs (dateStr ++ ' ' :: natDigits year) with
  | [dtok, mtok, ytok] =>
      match strptimeDay dtok, strptimeMonthAbbrev mtok, strptimeYear ytok with
      | some d, some m, some y => if validDate y m d then some ⟨y, m, d⟩ else none
      | _, _, _ => none
  | _ => none

/-- A canonical transaction record of the text path: `date` is `None` when
the date string fails to parse, `amount` is `none` for `np.nan`. -/
structure TxnRec where
  date : Option PyDate
  description : List Char
  amount : Option ℚ
deriving DecidableEq, Repr

/-- One transaction from a primary-pattern match: date via
`strptime(.., "%m/%d/%Y")` (`None` on failure), stripped description,
amount via `float` after removing commas (`nan`, i.e. `none`, on failure). -/
def mkPrimaryTxn (s : List Char) (caps : List (Nat × Nat × Nat)) : TxnRec :=
  { date := strptimeNumeric .mdy '/' (capGet s caps 1)
    description := pyStrip (capGet s caps 2)
    amount := pyFloatChars ((capGet s caps 3).filter (fun c => !(c == ','))) }

/-- Debit/credit candidate of a secondary-pattern match: group text with `$`
and `,` removed, `float`-parsed, defaulting to `0.0` on failure. -/
def secAmount (s : List Char) (caps : List (Nat × Nat × Nat)) (i : Nat) : ℚ :=
  (pyFloatChars ((capGet s caps i).filter (fun c => !(c == '$' || c == ',')))).getD 0

/-- One transaction from a secondary-pattern match: short date with the
current year appended, stripped description, and signed amount
`-debit` if `debit > 0` else `credit`. -/
def mkSecondaryTxn (year : Nat) (s : List Char) (caps : List (Nat × Nat × Nat)) : TxnRec :=
  { date := strptimeShortDate year (capGet s caps 1)
    description := pyStrip (capGet s caps 2)
    amount := some (if 0 < secAmount s caps 3 then -secAmount s caps 3 else secAmount s caps 4) }

/-- `transaction_analysis.parse_transactions_from_text`: all primary-pattern
matches become transactions; only if that list is empty is the secondary
pattern applied.  `year` stands for `datetime.now().year`. -/
def parse_transactions_from_text (year : Nat) (text : List Char) : List TxnRec :=
  let prim := (reFindAll primaryToks text).map (mkPrimaryTxn text)
  if prim.isEmpty then (reFindAll secondaryToks text).map (mkSecondaryTxn year text)
  else prim

/-! ## DataFrame model

A pandas `DataFrame` is modelled as a list of column names plus rows of
cells; a cell is a Python value (string, float, datetime or `None`/`NaN`).
Label-based access resolves a name to its first column index, which agrees
with pandas whenever the column names are distinct. -/

/-- A Python cell value. -/
inductive PyVal where
  | vStr (s : List Char)
  | vFloat (q : ℚ)
  | vInt (z : ℤ)
  | vDate (d : PyDate)
  | vNone
deriving DecidableEq, Repr

/-- A DataFrame: column names and rows of cells. -/
structure DF where
  cols : List (List Char)
  rows : List (List PyVal)
deriving DecidableEq, Repr

/-- A DataFrame is rectangular (every pandas frame is). -/
def DF.Rect (df : DF) : Prop :=
  ∀ r ∈ df.rows, r.length = df.cols.length

/-- First index of a name in a column list. -/
def idxOfName : List (List Char) → List Char → Option Nat
  | [], _ => none
  | c :: cs, n => if c = n then some 0 else (idxOfName cs n).map (· + 1)

/-- First index of a column name. -/
def DF.colIdx (df : DF) (name : List Char) : Option Nat :=
  idxOfName df.cols name

/-- Cell of a row at a column index (`vNone` out of range). -/
def rowGet (r : List PyVal) (i : Nat) : PyVal :=
  r.getD i PyVal.vNone

/-- `df[name]` as a list of cells. -/
def DF.getCol (df : DF) (name : List Char) : Option (List PyVal) :=
  (df.colIdx name).map fun i => df.rows.map fun r => rowGet r i

/-- `df[name] = vals`: overwrite the column if present, else append it. -/
def DF.setCol (df : DF) (name : List Char) (vals : List PyVal) : DF :=
  match df.colIdx name with
  | some i => { df with rows := df.rows.zipWith (fun r v => r.set i v) vals }
  | none => { cols := df.cols ++ [name], rows := df.rows.zipWith (fun r v => r ++ [v]) vals }

/-- `df[name] = const`: overwrite or append a constant column. -/
def DF.setColAll (df : DF) (name : List Char) (v : PyVal) : DF :=
  match df.colIdx name with
  | some i => { df with rows := df.rows.map fun r => r.set i v }
  | none => { cols := df.cols ++ [name], rows := df.rows.map fun r => r ++ [v] }

/-- `df[name] = df[name].apply(f)` (no-op when the column is absent, which
never happens on the paths that use it). -/
def DF.mapCol (df : DF) (name : List Char) (f : PyVal → PyVal) : DF :=
  match df.colIdx name with
  | some i => { df with rows := df.rows.map fun r => r.set i (f (rowGet r i)) }
  | none => df

/-- Python `str(x)` on a cell, as applied by the cleaning code.  Floats are
printed as their shortest decimal (exact for every value this pipeline
produces — all are decimal fractions); `None` prints as `"None"`,
datetimes as `"YYYY-MM-DD 00:00:00"`. -/
def floatRepr (q : ℚ) : List Char :=
  let sign : List Char := if q < 0 then ['-'] else []
  let n := q.num.natAbs
  let den := q.den
  match (List.range 61).find? (fun k => 10 ^ k % den == 0) with
  | some k =>
      if k == 0 then sign ++ natDigits n ++ ".0".data
      else
        let scaled := n * 10 ^ k / den
        sign ++ natDigits (scaled / 10 ^ k) ++
          '.' :: (List.replicate (k - (natDigits (scaled % 10 ^ k)).length) '0'
            ++ natDigits (scaled % 10 ^ k))
  | none => "0.0".data

/-- Zero-padded decimal digits of width `w`. -/
def padDigits (w n : Nat) : List Char :=
  List.replicate (w - (natDigits n).length) '0' ++ natDigits n

/-- `str` of a `datetime` (midnight). -/
def dateTimeRepr (d : PyDate) : List Char :=
  padDigits 4 d.year ++ '-' :: padDigits 2 d.month ++ '-' :: padDigits 2 d.day
    ++ " 00:00:00".data

/-- Python `str(x)` for a cell value. -/
def pyStrOfVal : PyVal → List Char
  | .vStr s => s
  | .vFloat q => floatRepr q
  | .vInt z => (if z < 0 then ['-'] else []) ++ natDigits z.natAbs
  | .vDate d => dateTimeRepr d
  | .vNone => "None".data

/-! ## The grid ingestion path (`clean_and_format_data`) -/

/-- The five detected column names of `data_cleaning.detect_columns`. -/
structure Detected where
  date : Option (List Char)
  desc : Option (List Char)
  debit : Option (List Char)
  credit : Option (List Char)
  bal : Option (List Char)
deriving DecidableEq, Repr

/-- Python's substring test `pat in s`. -/
def containsSub (pat cs : List Char) : Bool :=
  (List.range (cs.length + 1)).any fun i => pat.isPrefixOf (cs.drop i)

/-- Lower-cased string (`str.lower()`, ASCII fragment). -/
def lowerStr (cs : List Char) : List Char :=
  cs.map Char.toLower

/-- One iteration of `detect_columns`' `elif` chain on one header. -/
def detectStep (acc : Detected) (col : List Char) : Detected :=
  let lc := lowerStr col
  if containsSub "date".data lc then { acc with date := some col }
  else if containsSub "desc".data lc || containsSub "narration".data lc then
    { acc with desc := some col }
  else if containsSub "debit".data lc then { acc with debit := some col }
  else if containsSub "credit".data lc then { acc with credit := some col }
  else if containsSub "bal".data lc then { acc with bal := some col }
  else acc

/-- `data_cleaning.detect_columns`: classify each header by substring
keywords in an `elif` chain; a later matching column overwrites an
earlier one; `amount` is deliberately left unclassified. -/
def detect_columns (cols : List (List Char)) : Detected :=
  cols.foldl detectStep ⟨none, none, none, none, none⟩

/-- Python falsiness of an optional column name (`None` or `""`). -/
def pyFalsy : Option (List Char) → Bool
  | none => true
  | some s => s.isEmpty

/-- Whether the raw header has a column literally named `Amount`
(`'Amount' in df.columns`). -/
def hasAmountCol (header : List (List Char)) : Bool :=
  header.contains "Amount".data

/-- The `debit_col` variable after the `Amount` branch possibly assigns
`'debit'` to it. -/
def debitColOf (header : List (List Char)) : Option (List Char) :=
  if hasAmountCol header && pyFalsy (detect_columns header).debit then some "debit".data
  else (detect_columns header).debit

/-- The `credit_col` variable after the `Amount` branch possibly assigns
`'credit'` to it. -/
def creditColOf (header : List (List Char)) : Option (List Char) :=
  if hasAmountCol header && pyFalsy (detect_columns header).credit then some "credit".data
  else (detect_columns header).credit

/-- Python `abs`. -/
def pyAbs (q : ℚ) : ℚ :=
  if q < 0 then -q else q

/-- The value `parse_amount(df.loc[i, 'Amount'])` of a cell (cells of the
`Amount` column are still raw strings at this point). -/
def amountVal : PyVal → ℚ
  | .vStr s => parse_amount s
  | _ => 0

/-- One iteration of the `Amount`-splitting loop on its row: a negative
parsed amount writes `abs(val)` to the debit cell and `0.0` to the credit
cell; otherwise the credit cell gets the value and the debit cell `0.0`. -/
def amountSplitRow (di ci ai : Nat) (r : List PyVal) : List PyVal :=
  let val := amountVal (rowGet r ai)
  if val < 0 then (r.set di (.vFloat (pyAbs val))).set ci (.vFloat 0)
  else (r.set ci (.vFloat val)).set di (.vFloat 0)

/-- Steps 18–35 of `clean_and_format_data`: when an `Amount` column exists,
create zero-filled `debit`/`credit` columns for the ones not detected, then
split each row's parsed amount into them. -/
def cleanSplit (header : List (List Char)) (df : DF) : DF :=
  if hasAmountCol header then
    let df1 := if pyFalsy (detect_columns header).debit then
        df.setColAll "debit".data (.vFloat 0) else df
    let df2 := if pyFalsy (detect_columns header).credit then
        df1.setColAll "credit".data (.vFloat 0) else df1
    match df2.colIdx ((debitColOf header).getD []),
        df2.colIdx ((creditColOf header).getD []), df2.colIdx "Amount".data with
    | some di, some ci, some ai => { df2 with rows := df2.rows.map (amountSplitRow di ci ai) }
    | _, _, _ => df2
  else df

/-- Append a column name when absent (`df[name] = const` on the names). -/
def appendColIfAbsent (cols : List (List Char)) (n : List Char) : List (List Char) :=
  if cols.contains n then cols else cols ++ [n]

/-- The column names after `cleanSplit` (the header plus the synthesized
`debit`/`credit` columns, each appended only when its side was not
detected). -/
def splitCols (header : List (List Char)) : List (List Char) :=
  if hasAmountCol header then
    let c1 := if pyFalsy (detect_columns header).debit then
        appendColIfAbsent header "debit".data else header
    if pyFalsy (detect_columns header).credit then appendColIfAbsent c1 "credit".data else c1
  else header

/-- Lines 38–39: convert the detected date column with `parse_date(str(x))`
(`None` on failure). -/
def cleanParseDates (header : List (List Char)) (df : DF) : DF :=
  if !pyFalsy (detect_columns header).date
      && df.cols.contains ((detect_columns header).date.getD []) then
    df.mapCol ((detect_columns header).date.getD [])
      (fun v => match parse_date (pyStrOfVal v) with
        | some d => .vDate d
        | none => .vNone)
  else df

/-- One `if <col> and <col> in df.columns` numeric conversion of
lines 42–47. -/
def convNum (c : Option (List Char)) (d : DF) : DF :=
  if !pyFalsy c && d.cols.contains (c.getD []) then
    d.mapCol (c.getD []) (fun v => .vFloat (parse_amount (pyStrOfVal v)))
  else d

/-- Lines 42–47: convert debit/credit/balance columns with
`parse_amount(str(x))`. -/
def cleanParseNums (header : List (List Char)) (df : DF) : DF :=
  convNum (detect_columns header).bal
    (convNum (creditColOf header) (convNum (debitColOf header) df))

/-- Lines 49–51: `df.dropna(subset=[date_col])` when the detected date
column exists. -/
def cleanDropNa (header : List (List Char)) (df : DF) : DF :=
  match (detect_columns header).date with
  | some dc =>
      if df.cols.contains dc then
        match df.colIdx dc with
        | some di => { df with rows := df.rows.filter (fun r => rowGet r di != PyVal.vNone) }
        | none => df
      else df
  | none => df

/-- The rename map of lines 54–60 applied to one column name. -/
def renameName (header : List (List Char)) (n : List Char) : List Char :=
  if (detect_columns header).date = some n then "date".data
  else if (detect_columns header).desc = some n then "description".data
  else if debitColOf header = some n then "debit".data
  else if creditColOf header = some n then "credit".data
  else if (detect_columns header).bal = some n then "balance".data
  else n

/-- Lines 54–60: rename to the canonical schema. -/
def cleanRename (header : List (List Char)) (df : DF) : DF :=
  { df with cols := df.cols.map (renameName header) }

/-- The canonical column order. -/
def canonCols : List (List Char) :=
  ["date".data, "description".data, "debit".data, "credit".data, "balance".data]

/-- Lines 62–64: keep the canonical columns that exist, in canonical
order. -/
def cleanReorder (df : DF) : DF :=
  let keep := canonCols.filter (fun c => df.cols.contains c)
  { cols := keep
    rows := df.rows.map (fun r => keep.map (fun c => rowGet r ((df.colIdx c).getD 0))) }

/-- `data_cleaning.clean_and_format_data` on a raw cell grid: promote the
first row to headers, detect columns, split a combined `Amount` column,
parse dates and amounts, drop rows with unparsed dates, rename and
reorder.  `none` models the `IndexError` an empty grid raises. -/
def clean_and_format_data (grid : List (List (List Char))) : Option DF :=
  match grid with
  | [] => none
  | header :: dataRows =>
      some (cleanReorder (cleanRename header (cleanDropNa header (cleanParseNums header
        (cleanParseDates header (cleanSplit header
          ⟨header, dataRows.map (fun r => r.map PyVal.vStr)⟩))))))

/-! ## Analysis stages (categorization, anomaly detection) -/

/-- Python exception kinds raised by the analysis stages. -/
inductive PyErr where
  | valueError
  | keyError
  | attributeError
deriving DecidableEq, Repr

/-- `transaction_analysis.categorize_transaction`: flow-direction taxonomy
on the lower-cased description. -/
def categorize_transaction (desc : List Char) : List Char :=
  let d := lowerStr desc
  if ["deposit".data, "credit".data, "payment received".data, "incoming".data].any
      (fun k => containsSub k d) then "Deposit".data
  else if ["withdrawal".data, "check".data, "card".data, "payment".data, "debit".data,
      "purchase".data].any (fun k => containsSub k d) then "Expense".data
  else "Other".data

/-- `description.lower()` on one cell: only strings have `.lower()`; any
other value raises `AttributeError`. -/
def categorizeCell : PyVal → Except PyErr (List Char)
  | .vStr s => .ok (categorize_transaction s)
  | _ => .error .attributeError

/-- `Series.apply` over cells, stopping at the first raising cell. -/
def mapCells (f : PyVal → Except PyErr (List Char)) : List PyVal → Except PyErr (List (List Char))
  | [] => .ok []
  | v :: vs =>
      match f v with
      | .ok c =>
          match mapCells f vs with
          | .ok cs => .ok (c :: cs)
          | .error e => .error e
      | .error e => .error e

/-- `transaction_analysis.apply_categorization`: `ValueError` when there is
no `description` column, otherwise add/overwrite a `category` column
computed from each description. -/
def apply_categorization (df : DF) : Except PyErr DF :=
  if df.cols.contains "description".data then
    match df.getCol "description".data with
    | some cells =>
        match mapCells categorizeCell cells with
        | .ok cats => .ok (df.setCol "category".data (cats.map PyVal.vStr))
        | .error e => .error e
    | none => .error .keyError
  else .error .valueError

/-- `classification.classify_transactions`'s keyword table, tested in
insertion order, first match wins, default `misc`. -/
def classifyKeyword (d : List Char) : List Char :=
  if ["rent".data, "lease".data].any (fun k => containsSub k d) then "rent".data
  else if ["electric".data, "utility".data, "water".data, "gas".data, "wifi".data,
      "internet".data].any (fun k => containsSub k d) then "utilities".data
  else if ["payroll".data, "salary".data, "wages".data, "paycheck".data].any
      (fun k => containsSub k d) then "payroll".data
  else if ["loan".data, "mortgage".data, "interest".data, "repayment".data].any
      (fun k => containsSub k d) then "loan".data
  else if ["insurance".data, "premium".data].any (fun k => containsSub k d) then
    "insurance".data
  else "misc".data

/-- `classification.classify_transactions`: `str(row['description'])`
(a `KeyError` when the column is missing), keyword classification, and a
new/overwritten `category` column. -/
def classify_transactions (df : DF) : Except PyErr DF :=
  match df.colIdx "description".data with
  | some i =>
      .ok (df.setCol "category".data
        (df.rows.map (fun r => .vStr (classifyKeyword (lowerStr (pyStrOfVal (rowGet r i)))))))
  | none => .error .keyError

/-- `transaction_analysis.detect_anomalies`: an empty frame is returned
unchanged; otherwise `IsolationForest(contamination, random_state=42)` is
fit on the `amount` column and its `fit_predict` labels (1 normal, -1
anomalous) become the `anomaly` column.  The fitted model is abstracted
as the function `forest (seed) (contamination) (values)`, which models
sklearn's deterministic output for a fixed seed; a label list of the
wrong length cannot be assigned and raises. -/
def detect_anomalies (forest : Nat → ℚ → List PyVal → List ℤ)
    (contamination : ℚ) (df : DF) : Except PyErr DF :=
  if df.rows.isEmpty || df.cols.isEmpty then .ok df
  else
    match df.getCol "amount".data with
    | some amounts =>
        let preds := forest 42 contamination amounts
        if preds.length = df.rows.length then
          .ok (df.setCol "anomaly".data (preds.map PyVal.vInt))
        else .error .valueError
    | none => .error .keyError

/-! ## Forecasting (`forecast_cash_flow`)

Calendar days are modelled as integers (epoch day numbers); a transaction
row contributes `(day, amount)`.  The numerically fitted
`ExponentialSmoothing(trend="add").fit(optimized=True)` parameters are
abstracted as a function `fit` from the daily series to a (level, trend)
pair; Holt's additive-trend `h`-step-ahead forecast is `level + h·trend`,
indexed on the `h` consecutive days after the last historical day (the
series has daily frequency). -/

/-- Earliest day of the data (`0` for no rows, unused). -/
def minDay : List (ℤ × ℚ) → ℤ
  | [] => 0
  | p :: ps => ps.foldl (fun a q => min a q.1) p.1

/-- Latest day of the data (`0` for no rows, unused). -/
def maxDay : List (ℤ × ℚ) → ℤ
  | [] => 0
  | p :: ps => ps.foldl (fun a q => max a q.1) p.1

/-- Net amount of one calendar day (`groupby(date).sum()`, `0` for a day
with no transactions). -/
def dailyTotals (rows : List (ℤ × ℚ)) (d : ℤ) : ℚ :=
  ((rows.filter (fun p => p.1 = d)).map Prod.snd).sum

/-- The `DailyCashFlowSeries`: daily net amounts on every day of
`[minDay, maxDay]`, zero-filled (`groupby` + `sort_index` +
`asfreq("D", fill_value=0)`). -/
def dailyFlow (rows : List (ℤ × ℚ)) : List (ℤ × ℚ) :=
  match rows with
  | [] => []
  | _ =>
      (List.range ((maxDay rows - minDay rows).toNat + 1)).map
        (fun (i : Nat) =>
          (minDay rows + (i : ℤ), dailyTotals rows (minDay rows + (i : ℤ))))

/-- `forecasting.forecast_cash_flow` (forecast series only; the plot
artifact is out of scope): build the daily series and forecast
`forecast_period` further days.  `none` models the fit crashing on an
empty frame. -/
def forecast_cash_flow (fit : List (ℤ × ℚ) → ℚ × ℚ) (forecast_period : Nat)
    (rows : List (ℤ × ℚ)) : Option (List (ℤ × ℚ)) :=
  match rows with
  | [] => none
  | _ =>
      let lb := fit (dailyFlow rows)
      some ((List.range forecast_period).map
        (fun (i : Nat) => (maxDay rows + 1 + (i : ℤ), lb.1 + ((i : ℚ) + 1) * lb.2)))

/-- The default `forecast_period` parameter. -/
def forecastPeriodDefault : Nat := 30

/-! ## Theorems -/

/-! ### List and DataFrame toolbox -/

theorem rowGet_out_of_range : ∀ (r : List PyVal) (i : Nat), r.length ≤ i →
    rowGet r i = PyVal.vNone
  | [], _, _ => rfl
  | _ :: _, 0, h => absurd h (by simp)
  | _ :: t, i + 1, h => rowGet_out_of_range t i (Nat.le_of_succ_le_succ h)

theorem rowGet_set_self : ∀ (r : List PyVal) (i : Nat) (v : PyVal), i < r.length →
    rowGet (r.set i v) i = v
  | [], _, _, h => absurd h (by simp)
  | _ :: _, 0, _, _ => rfl
  | _ :: t, i + 1, v, h => rowGet_set_self t i v (Nat.lt_of_succ_lt_succ h)

theorem rowGet_set_ne : ∀ (r : List PyVal) (i j : Nat) (v : PyVal), i ≠ j →
    rowGet (r.set i v) j = rowGet r j
  | [], _, _, _, _ => rfl
  | _ :: _, 0, 0, _, h => absurd rfl h
  | _ :: _, 0, _ + 1, _, _ => rfl
  | _ :: _, _ + 1, 0, _, _ => rfl
  | _ :: t, i + 1, j + 1, v, h =>
      rowGet_set_ne t i j v (fun e => h (congrArg Nat.succ e))

theorem rowGet_append_len : ∀ (r : List PyVal) (v : PyVal), rowGet (r ++ [v]) r.length = v
  | [], _ => rfl
  | _ :: t, v => rowGet_append_len t v

theorem rowGet_append_lt : ∀ (r : List PyVal) (v : PyVal) (i : Nat), i < r.length →
    rowGet (r ++ [v]) i = rowGet r i
  | [], _, _, h => absurd h (by simp)
  | _ :: _, _, 0, _ => rfl
  | _ :: t, v, i + 1, h => rowGet_append_lt t v i (Nat.lt_of_succ_lt_succ h)

theorem set_append_len : ∀ (r : List PyVal) (v w : PyVal), (r ++ [v]).set r.length w = r ++ [w]
  | [], _, _ => rfl
  | a :: t, v, w => congrArg (a :: ·) (set_append_len t v w)

theorem idxOfName_get : ∀ (cols : List (List Char)) (n : List Char) (i : Nat),
    idxOfName cols n = some i → cols.get? i = some n := by
  intro cols
  induction cols with
  | nil => intro n i h; simp [idxOfName] at h
  | cons c cs ih =>
      intro n i h
      by_cases hc : c = n
      · simp only [idxOfName, if_pos hc] at h
        cases h
        simp [hc]
      · simp only [idxOfName, if_neg hc, Option.map_eq_some'] at h
        obtain ⟨j, hj, rfl⟩ := h
        simpa using ih n j hj

theorem idxOfName_lt {cols : List (List Char)} {n : List Char} {i : Nat}
    (h : idxOfName cols n = some i) : i < cols.length := by
  have := idxOfName_get cols n i h
  exact (List.get?_eq_some.mp this).1

theorem idxOfName_none_iff {cols : List (List Char)} {n : List Char} :
    idxOfName cols n = none ↔ n ∉ cols := by
  induction cols with
  | nil => simp [idxOfName]
  | cons c cs ih =>
      by_cases hc : c = n
      · simp [idxOfName, hc]
      · simp [idxOfName, hc, ih, Ne.symm hc]

theorem idxOfName_of_mem {cols : List (List Char)} {n : List Char} (h : n ∈ cols) :
    ∃ i, idxOfName cols n = some i := by
  cases hi : idxOfName cols n with
  | none => exact absurd (idxOfName_none_iff.mp hi) (by simp [h])
  | some i => exact ⟨i, rfl⟩

theorem idxOfName_ne {cols : List (List Char)} {n₁ n₂ : List Char} {i j : Nat}
    (hne : n₁ ≠ n₂) (h₁ : idxOfName cols n₁ = some i) (h₂ : idxOfName cols n₂ = some j) :
    i ≠ j := by
  intro e
  subst e
  exact hne (Option.some.inj ((idxOfName_get cols n₁ i h₁).symm.trans
    (idxOfName_get cols n₂ i h₂)))

theorem idxOfName_append_some {cols more : List (List Char)} {n : List Char} {i : Nat}
    (h : idxOfName cols n = some i) : idxOfName (cols ++ more) n = some i := by
  induction cols generalizing i with
  | nil => simp [idxOfName] at h
  | cons c cs ih =>
      by_cases hc : c = n
      · simp only [idxOfName, if_pos hc] at h ⊢
        exact h
      · simp only [idxOfName, if_neg hc, Option.map_eq_some'] at h ⊢
        obtain ⟨j, hj, rfl⟩ := h
        exact ⟨j, ih hj, rfl⟩

theorem idxOfName_append_self {cols : List (List Char)} {n : List Char} (h : n ∉ cols) :
    idxOfName (cols ++ [n]) n = some cols.length := by
  induction cols with
  | nil => simp [idxOfName]
  | cons c cs ih =>
      have hc : c ≠ n := fun e => h (by simp [e])
      have ih' := ih (fun hm => h (List.mem_cons_of_mem _ hm))
      simp only [List.cons_append, idxOfName, if_neg hc]
      rw [show cs.append [n] = cs ++ [n] from rfl, ih', Option.map_some']
      rfl

theorem idxOfName_of_get_nodup {cols : List (List Char)} {n : List Char} {i : Nat}
    (hnd : cols.Nodup) (h : cols.get? i = some n) : idxOfName cols n = some i := by
  induction cols generalizing i with
  | nil => simp at h
  | cons c cs ih =>
      cases i with
      | zero =>
          simp at h
          simp [idxOfName, h]
      | succ i =>
          simp only [List.get?_cons_succ] at h
          have hmem : n ∈ cs := List.get?_mem h
          have hc : c ≠ n := by
            intro e
            exact (List.nodup_cons.mp hnd).1 (e ▸ hmem)
          simp [idxOfName, hc, ih (List.nodup_cons.mp hnd).2 h]

theorem mem_iff_contains {cols : List (List Char)} {n : List Char} :
    cols.contains n = true ↔ n ∈ cols :=
  ⟨List.mem_of_elem_eq_true, List.elem_eq_true_of_mem⟩

theorem zipWith_congr_mem {α β γ : Type} (f g : α → β → γ) :
    ∀ (as : List α) (bs : List β), (∀ a ∈ as, ∀ b ∈ bs, f a b = g a b) →
      List.zipWith f as bs = List.zipWith g as bs
  | [], _, _ => by simp
  | _ :: _, [], _ => by simp
  | a :: as, b :: bs, h => by
      simp only [List.zipWith_cons_cons]
      refine congrArg₂ _ (h a (by simp) b (by simp)) ?_
      exact zipWith_congr_mem f g as bs fun x hx y hy =>
        h x (List.mem_cons_of_mem _ hx) y (List.mem_cons_of_mem _ hy)

theorem zipWith_proj_right {α β : Type} :
    ∀ (as : List α) (bs : List β), bs.length = as.length →
      List.zipWith (fun _ b => b) as bs = bs
  | [], [], _ => rfl
  | [], _ :: _, h => by simp at h
  | _ :: _, [], _ => rfl
  | _ :: as, b :: bs, h => by
      simp only [List.zipWith_cons_cons]
      exact congrArg (b :: ·) (zipWith_proj_right as bs (by simpa using h))

theorem zipWith_zipWith_same {α β γ δ : Type} (f : γ → β → δ) (g : α → β → γ) :
    ∀ (as : List α) (bs : List β),
      List.zipWith f (List.zipWith g as bs) bs = List.zipWith (fun a b => f (g a b) b) as bs
  | [], _ => by simp
  | _ :: _, [] => by simp
  | a :: as, b :: bs => by
      simp only [List.zipWith_cons_cons]
      exact congrArg _ (zipWith_zipWith_same f g as bs)

theorem isEmpty_false_iff {α : Type} {l : List α} : l.isEmpty = false ↔ l ≠ [] := by
  cases l <;> simp

theorem zipWith_map_left {α β γ : Type} (f : α → γ) :
    ∀ (as : List α) (bs : List β), bs.length = as.length →
      List.zipWith (fun a _ => f a) as bs = as.map f
  | [], [], _ => rfl
  | [], _ :: _, h => by simp at h
  | _ :: _, [], h => by simp at h
  | a :: as, b :: bs, h => by
      simp only [List.zipWith_cons_cons, List.map_cons]
      exact congrArg _ (zipWith_map_left f as bs (by simpa using h))

theorem mem_zipWith_pair {α β γ : Type} {f : α → β → γ} :
    ∀ {as : List α} {bs : List β} {c : γ}, c ∈ List.zipWith f as bs →
      ∃ a, a ∈ as ∧ ∃ b, b ∈ bs ∧ c = f a b
  | [], _, _, h => by simp at h
  | _ :: _, [], _, h => by simp at h
  | a :: as, b :: bs, c, h => by
      rw [List.zipWith_cons_cons, List.mem_cons] at h
      rcases h with rfl | h
      · exact ⟨a, by simp, b, by simp, rfl⟩
      · obtain ⟨a', ha, b', hb, rfl⟩ := mem_zipWith_pair h
        exact ⟨a', List.mem_cons_of_mem _ ha, b', List.mem_cons_of_mem _ hb, rfl⟩

theorem setCol_eq_some {df : DF} {n : List Char} {vals : List PyVal} {i : Nat}
    (hidx : df.colIdx n = some i) :
    df.setCol n vals = ⟨df.cols, List.zipWith (fun r v => r.set i v) df.rows vals⟩ := by
  unfold DF.setCol
  rw [hidx]

theorem setCol_eq_none {df : DF} {n : List Char} {vals : List PyVal}
    (hidx : df.colIdx n = none) :
    df.setCol n vals = ⟨df.cols ++ [n], List.zipWith (fun r v => r ++ [v]) df.rows vals⟩ := by
  unfold DF.setCol
  rw [hidx]

theorem getCol_eq (df : DF) (n : List Char) :
    df.getCol n = (idxOfName df.cols n).map (fun i => df.rows.map (fun r => rowGet r i)) :=
  rfl

theorem setCol_rows_length {df : DF} {n : List Char} {vals : List PyVal}
    (h : vals.length = df.rows.length) : (df.setCol n vals).rows.length = df.rows.length := by
  cases hidx : df.colIdx n with
  | some i => rw [setCol_eq_some hidx]; simp [List.length_zipWith, h]
  | none => rw [setCol_eq_none hidx]; simp [List.length_zipWith, h]

theorem setCol_rect {df : DF} {n : List Char} {vals : List PyVal}
    (hr : df.Rect) (h : vals.length = df.rows.length) : (df.setCol n vals).Rect := by
  cases hidx : df.colIdx n with
  | some i =>
      rw [setCol_eq_some hidx]
      intro r hmem
      obtain ⟨a, ha, b, _, rfl⟩ := mem_zipWith_pair hmem
      simpa [List.length_set] using hr a ha
  | none =>
      rw [setCol_eq_none hidx]
      intro r hmem
      obtain ⟨a, ha, b, _, rfl⟩ := mem_zipWith_pair hmem
      simp [hr a ha]

theorem getCol_setCol_self {df : DF} {n : List Char} {vals : List PyVal}
    (hr : df.Rect) (h : vals.length = df.rows.length) :
    (df.setCol n vals).getCol n = some vals := by
  cases hidx : df.colIdx n with
  | some i =>
      rw [setCol_eq_some hidx, getCol_eq]
      simp only [hidx, DF.colIdx] at *
      simp only [hidx, Option.map_some', Option.some.injEq]
      rw [List.map_zipWith]
      have hlt : i < df.cols.length := idxOfName_lt hidx
      rw [zipWith_congr_mem _ (fun _ b => b) df.rows vals (fun r hrm v _ =>
        rowGet_set_self r i v (by rw [hr r hrm]; exact hlt))]
      exact zipWith_proj_right _ _ h
  | none =>
      have hnm : n ∉ df.cols := idxOfName_none_iff.mp hidx
      rw [setCol_eq_none hidx, getCol_eq]
      simp only [idxOfName_append_self hnm, Option.map_some', Option.some.injEq]
      rw [List.map_zipWith]
      rw [zipWith_congr_mem _ (fun _ b => b) df.rows vals (fun r hrm v _ => by
        rw [← hr r hrm]; exact rowGet_append_len r v)]
      exact zipWith_proj_right _ _ h

theorem getCol_setCol_ne {df : DF} {n n' : List Char} {vals : List PyVal}
    (hr : df.Rect) (h : vals.length = df.rows.length) (hne : n' ≠ n) :
    (df.setCol n vals).getCol n' = df.getCol n' := by
  cases hidx : df.colIdx n with
  | some i =>
      rw [setCol_eq_some hidx, getCol_eq, getCol_eq]
      simp only [DF.colIdx] at hidx
      cases hidx' : idxOfName df.cols n' with
      | none => simp
      | some j =>
          simp only [Option.map_some', Option.some.injEq]
          rw [List.map_zipWith]
          rw [zipWith_congr_mem _ (fun r _ => rowGet r j) df.rows vals (fun r _ v _ =>
            rowGet_set_ne r i j v (idxOfName_ne hne.symm hidx hidx'))]
          exact zipWith_map_left (fun r => rowGet r j) df.rows vals h
  | none =>
      have hnm : n ∉ df.cols := idxOfName_none_iff.mp hidx
      rw [setCol_eq_none hidx, getCol_eq, getCol_eq]
      simp only [DF.colIdx] at hidx
      cases hidx' : idxOfName df.cols n' with
      | none =>
          have hap : idxOfName (df.cols ++ [n]) n' = none := by
            cases hap : idxOfName (df.cols ++ [n]) n' with
            | none => rfl
            | some k =>
                have hk := List.get?_mem (idxOfName_get _ _ _ hap)
                simp only [List.mem_append, List.mem_singleton] at hk
                rcases hk with hk | hk
                · exact absurd hk (idxOfName_none_iff.mp hidx')
                · exact absurd hk hne
          simp [hap]
      | some j =>
          have hap : idxOfName (df.cols ++ [n]) n' = some j := idxOfName_append_some hidx'
          simp only [hap, Option.map_some', Option.some.injEq]
          rw [List.map_zipWith]
          have hjlt : j < df.cols.length := idxOfName_lt hidx'
          rw [zipWith_congr_mem _ (fun r _ => rowGet r j) df.rows vals (fun r hrm v _ =>
            rowGet_append_lt r v j (by rw [hr r hrm]; exact hjlt))]
          exact zipWith_map_left (fun r => rowGet r j) df.rows vals h

theorem setCol_setCol_self {df : DF} {n : List Char} {vals : List PyVal}
    (hr : df.Rect) (h : vals.length = df.rows.length) :
    (df.setCol n vals).setCol n vals = df.setCol n vals := by
  cases hidx : df.colIdx n with
  | some i =>
      rw [setCol_eq_some hidx]
      have hidx2 : (DF.mk df.cols
          (List.zipWith (fun r v => r.set i v) df.rows vals)).colIdx n = some i := hidx
      rw [setCol_eq_some hidx2]
      simp only
      rw [zipWith_zipWith_same]
      refine congrArg _ (zipWith_congr_mem _ _ df.rows vals fun r _ v _ => ?_)
      exact List.set_set v v r i
  | none =>
      have hnm : n ∉ df.cols := idxOfName_none_iff.mp hidx
      rw [setCol_eq_none hidx]
      have hidx2 : (DF.mk (df.cols ++ [n])
          (List.zipWith (fun r v => r ++ [v]) df.rows vals)).colIdx n = some df.cols.length :=
        idxOfName_append_self hnm
      rw [setCol_eq_some hidx2]
      simp only
      rw [zipWith_zipWith_same]
      refine congrArg _ (zipWith_congr_mem _ _ df.rows vals fun r hrm v _ => ?_)
      rw [← hr r hrm, set_append_len]

/-- A character failing the predicate survives `dropWhile`. -/
theorem mem_dropWhile_of_not {p : Char → Bool} {c : Char} {l : List Char}
    (hc : c ∈ l) (hp : p c = false) : c ∈ l.dropWhile p := by
  induction l with
  | nil => cases hc
  | cons a t ih =>
      rw [List.dropWhile_cons]
      by_cases ha : p a = true
      · simp only [ha, if_true]
        rcases List.mem_cons.mp hc with rfl | hct
        · rw [hp] at ha; cases ha
        · exact ih hct
      · simp only [ha, if_false]
        exact hc

/-- A non-whitespace character survives Python's `str.strip()`. -/
theorem mem_pyStrip {c : Char} {cs : List Char} (hc : c ∈ cs)
    (hp : isPySpace c = false) : c ∈ pyStrip cs := by
  unfold pyStrip
  refine List.mem_reverse.mpr (mem_dropWhile_of_not ?_ hp)
  exact List.mem_reverse.mpr (mem_dropWhile_of_not hc hp)

/-- C2 (counterexample): the input `"(-5)"` contains both parentheses, yet
`parse_amount` returns `0.0` — neither the claim's "negative of the
unparenthesized numeric value" (`-(-5) = 5`) nor the raw value `-5`:
the embedded minus makes the residue `"--5"` unparseable. -/
theorem parse_amount_parens_minus_cex :
    parse_amount "(-5)".data = 0 ∧ (0 : ℚ) ≠ -(-5 : ℚ) ∧ (0 : ℚ) ≠ (-5 : ℚ) := by
  decide

/-- C2 (amended): for a string whose cleaned residue contains both an opening
and a closing parenthesis and whose parenthesis-free residue is an
unsigned numeral of value `v` (no embedded minus), `parse_amount`
returns `-v`.  (With an embedded minus the residue is unparseable and the
result is `0.0` instead, by the counterexample.) -/
theorem parse_amount_balanced_parens_negates (cs : List Char) (v : ℚ)
    (h1 : (cs.filter keepAmountChar).contains '(' = true)
    (h2 : (cs.filter keepAmountChar).contains ')' = true)
    (h3 : unsignedPyFloat
        ((cs.filter keepAmountChar).filter (fun c => !(c == '(' || c == ')'))) = some v) :
    parse_amount cs = -v := by
  have hmem : '(' ∈ cs :=
    List.mem_of_mem_filter (List.mem_of_elem_eq_true h1)
  have hne : cs.isEmpty = false := by
    cases cs with
    | nil => cases hmem
    | cons a t => rfl
  have hstrip : (pyStrip cs).isEmpty = false := by
    have hm : '(' ∈ pyStrip cs := mem_pyStrip hmem (by decide)
    cases h : pyStrip cs with
    | nil => rw [h] at hm; cases hm
    | cons a t => rfl
  have hcond : (cs.isEmpty || (pyStrip cs).isEmpty) = false := by
    rw [hne, hstrip]
    rfl
  simp only [parse_amount, cleanedAmount, hcond, h1, h2, Bool.and_self,
    Bool.false_eq_true, if_false, if_true, pyFloatChars, h3, Option.map_some',
    Option.getD_some]

/-- C2 (witness): `"(1,234.56)"` parses to `-1234.56`. -/
theorem parse_amount_balanced_parens_negates_witness :
    parse_amount "(1,234.56)".data = -(1234.56 : ℚ) := by
  have h3 : unsignedPyFloat (("(1,234.56)".data.filter keepAmountChar).filter
      (fun c => !(c == '(' || c == ')'))) = some (1234.56 : ℚ) := by
    have h := show unsignedPyFloat (("(1,234.56)".data.filter keepAmountChar).filter
        (fun c => !(c == '(' || c == ')'))) = some (Rat.divInt 123456 100) by decide
    rw [h, Rat.divInt_eq_div]
    norm_num
  exact parse_amount_balanced_parens_negates _ _ (by decide) (by decide) h3

/-- C5: `parse_date` tries the five formats in a fixed order and returns the
first success (so the ambiguous `"01/02/2020"` parses day-first as
1 February 2020, although the second format would read it as January 2),
and returns `none` when every format fails; being a total function it
never raises. -/
theorem parse_date_first_format_wins :
    (∀ cs d, strptimeNumeric .dmy '/' cs = some d → parse_date cs = some d)
    ∧ (∀ cs, strptimeNumeric .dmy '/' cs = none →
        strptimeNumeric .mdy '/' cs = none →
        strptimeNumeric .ymd '-' cs = none →
        strptimeNumeric .dmy '-' cs = none →
        strptimeNumeric .dmy '.' cs = none →
        parse_date cs = none)
    ∧ parse_date "01/02/2020".data = some ⟨2020, 2, 1⟩
    ∧ strptimeNumeric .mdy '/' "01/02/2020".data = some ⟨2020, 1, 2⟩ := by
  refine ⟨fun cs d h => ?_, fun cs h1 h2 h3 h4 h5 => ?_, by decide, by decide⟩
  · unfold parse_date
    rw [h]
    rfl
  · unfold parse_date
    rw [h1, h2, h3, h4, h5]
    rfl

/-- C5 (witness): the first-format rule and the all-fail rule at concrete
inputs. -/
theorem parse_date_first_format_wins_witness :
    parse_date "13/01/2020".data = some ⟨2020, 1, 13⟩
    ∧ parse_date "not a date".data = none :=
  ⟨parse_date_first_format_wins.1 _ _ (by decide),
   parse_date_first_format_wins.2.1 _ (by decide) (by decide) (by decide) (by decide)
     (by decide)⟩

/-- C3: the fallback (short-date, dual-amount) strategy is applied exactly
when the primary (full-date) pattern has zero matches on the text unit; a
fallback transaction's signed amount is `-debit` when `debit > 0` and
`+credit` otherwise; and on the unit `"01 Dec Account Fee 4.00 804.80"`
(zero primary matches) the parser returns exactly one transaction, with
description `"Account Fee"` and amount `-4.00`. -/
theorem parse_transactions_fallback_only_on_zero_primary :
    (∀ y t, reFindAll primaryToks t ≠ [] →
      parse_transactions_from_text y t = (reFindAll primaryToks t).map (mkPrimaryTxn t))
    ∧ (∀ y t, reFindAll primaryToks t = [] →
      parse_transactions_from_text y t = (reFindAll secondaryToks t).map (mkSecondaryTxn y t))
    ∧ (∀ y s caps, (mkSecondaryTxn y s caps).amount =
        some (if 0 < secAmount s caps 3 then -secAmount s caps 3 else secAmount s caps 4))
    ∧ reFindAll primaryToks "01 Dec Account Fee 4.00 804.80".data = []
    ∧ (parse_transactions_from_text 2026 "01 Dec Account Fee 4.00 804.80".data).map
        (fun r => (r.description, r.amount))
      = [("Account Fee".data, some (-4 : ℚ))] := by
  refine ⟨fun y t h => ?_, fun y t h => ?_, fun y s caps => rfl, by decide, by decide⟩
  · cases hL : reFindAll primaryToks t with
    | nil => exact absurd hL h
    | cons a l => simp [parse_transactions_from_text, hL]
  · simp [parse_transactions_from_text, h]

/-- C3 (witness): the two strategy-selection rules at concrete inputs — a
text with a primary match uses the primary results, a text with none uses
the secondary results. -/
theorem parse_transactions_fallback_only_on_zero_primary_witness :
    parse_transactions_from_text 2026 "12/31/2017 Coffee Shop Purchase 4.50".data
      = (reFindAll primaryToks "12/31/2017 Coffee Shop Purchase 4.50".data).map
          (mkPrimaryTxn "12/31/2017 Coffee Shop Purchase 4.50".data)
    ∧ parse_transactions_from_text 2026 "01 Dec Account Fee 4.00 804.80".data
      = (reFindAll secondaryToks "01 Dec Account Fee 4.00 804.80".data).map
          (mkSecondaryTxn 2026 "01 Dec Account Fee 4.00 804.80".data) :=
  ⟨parse_transactions_fallback_only_on_zero_primary.1 2026 _ (by decide),
   parse_transactions_fallback_only_on_zero_primary.2.1 2026 _ (by decide)⟩

/-- C1 (counterexample): on the page text `"99/99/9999 Bad Date Fee 4.50"`
the primary pattern matches but `strptime` rejects the date; the text
ingestion path hands downstream exactly one record and its date is absent
— the record is not dropped. -/
theorem parse_transactions_keeps_dateless_record_cex :
    (parse_transactions_from_text 2026 "99/99/9999 Bad Date Fee 4.50".data).map TxnRec.date
      = [none] := by
  decide

/-- C9: `parse_amount` is a total function (never throws); empty or
whitespace-only input yields `0.0`, and so does any input whose cleaned
residue still fails to parse as a float. -/
theorem parse_amount_never_fails (cs : List Char) :
    ((cs.isEmpty || (pyStrip cs).isEmpty) = true → parse_amount cs = 0)
    ∧ (pyFloatChars (cleanedAmount cs) = none → parse_amount cs = 0) := by
  constructor
  · intro h
    unfold parse_amount
    rw [h]
    rfl
  · intro h
    unfold parse_amount
    by_cases hb : (cs.isEmpty || (pyStrip cs).isEmpty) = true
    · rw [hb]; rfl
    · rw [Bool.not_eq_true] at hb
      rw [hb]
      simp only [Bool.false_eq_true, if_false, h, Option.getD_none]

/-- C9 (witness): whitespace-only and unparseable inputs both yield `0.0`. -/
theorem parse_amount_never_fails_witness :
    parse_amount "   ".data = 0 ∧ parse_amount "abc".data = 0 :=
  ⟨(parse_amount_never_fails _).1 (by decide),
   (parse_amount_never_fails _).2 (by decide)⟩

/-! ### Analysis-stage theorems -/

theorem categorize_transaction_range (s : List Char) :
    categorize_transaction s = "Deposit".data ∨ categorize_transaction s = "Expense".data
      ∨ categorize_transaction s = "Other".data := by
  simp only [categorize_transaction]
  split
  · exact Or.inl rfl
  · split
    · exact Or.inr (Or.inl rfl)
    · exact Or.inr (Or.inr rfl)

theorem mapCells_ok_length {f : PyVal → Except PyErr (List Char)} :
    ∀ {cells : List PyVal} {cats : List (List Char)},
      mapCells f cells = .ok cats → cats.length = cells.length
  | [], cats, h => by
      simp only [mapCells] at h
      cases h
      rfl
  | v :: vs, cats, h => by
      simp only [mapCells] at h
      cases hv : f v with
      | ok c =>
          rw [hv] at h
          cases hrest : mapCells f vs with
          | ok cs =>
              rw [hrest] at h
              cases h
              simpa using mapCells_ok_length hrest
          | error e => rw [hrest] at h; cases h
      | error e => rw [hv] at h; cases h

theorem mapCells_ok_mem {f : PyVal → Except PyErr (List Char)} :
    ∀ {cells : List PyVal} {cats : List (List Char)},
      mapCells f cells = .ok cats → ∀ c ∈ cats, ∃ v, v ∈ cells ∧ f v = .ok c
  | [], cats, h => by
      simp only [mapCells] at h
      cases h
      intro c hc
      cases hc
  | v :: vs, cats, h => by
      simp only [mapCells] at h
      cases hv : f v with
      | ok c0 =>
          rw [hv] at h
          cases hrest : mapCells f vs with
          | ok cs =>
              rw [hrest] at h
              cases h
              intro c hc
              rcases List.mem_cons.mp hc with rfl | hc
              · exact ⟨v, by simp, hv⟩
              · obtain ⟨w, hw, hfw⟩ := mapCells_ok_mem hrest c hc
                exact ⟨w, List.mem_cons_of_mem _ hw, hfw⟩
          | error e => rw [hrest] at h; cases h
      | error e => rw [hv] at h; cases h

theorem mapCells_error_attr :
    ∀ {cells : List PyVal} {e : PyErr},
      mapCells categorizeCell cells = .error e → e = .attributeError
  | [], e, h => Except.noConfusion h
  | v :: vs, e, h => by
      simp only [mapCells] at h
      cases hv : categorizeCell v with
      | ok c =>
          rw [hv] at h
          cases hrest : mapCells categorizeCell vs with
          | ok cs => rw [hrest] at h; cases h
          | error e' =>
              rw [hrest] at h
              cases h
              exact mapCells_error_attr hrest
      | error e' =>
          rw [hv] at h
          cases h
          cases v <;> simp only [categorizeCell] at hv <;> cases hv <;> rfl

/-- C7: `detect_anomalies` applied to an empty transaction collection
returns it unchanged as a valid result (the `df.empty` early return), for
every outlier model and contamination rate; being a total function it
never raises. -/
theorem detect_anomalies_empty_noop (forest : Nat → ℚ → List PyVal → List ℤ)
    (c : ℚ) (df : DF) (h : df.rows = []) :
    detect_anomalies forest c df = .ok df := by
  unfold detect_anomalies
  rw [h]
  simp

/-- C7 (witness): the empty frame is returned unchanged. -/
theorem detect_anomalies_empty_noop_witness :
    detect_anomalies (fun _ _ xs => xs.map (fun _ => 1)) 0
      ⟨["amount".data], []⟩ = .ok ⟨["amount".data], []⟩ :=
  detect_anomalies_empty_noop _ 0 _ rfl

/-- C10: `apply_categorization` raises `ValueError` exactly when the frame
lacks a `description` column; when the column is present the only
modification is the added/overwritten `category` column, whose every
value is one of `Deposit`, `Expense`, `Other` — every other column is
returned unchanged. -/
theorem apply_categorization_contract (df : DF) (hr : df.Rect) :
    (apply_categorization df = .error .valueError
      ↔ df.cols.contains "description".data = false)
    ∧ (∀ df', apply_categorization df = .ok df' →
        (∃ cats, df'.getCol "category".data = some cats
          ∧ ∀ v ∈ cats, v = PyVal.vStr "Deposit".data ∨ v = PyVal.vStr "Expense".data
              ∨ v = PyVal.vStr "Other".data)
        ∧ (∀ n, n ≠ "category".data → df'.getCol n = df.getCol n)
        ∧ (df'.cols = df.cols ∨ df'.cols = df.cols ++ ["category".data])) := by
  cases hc : df.cols.contains "description".data with
  | false =>
      have happ : apply_categorization df = .error .valueError := by
        unfold apply_categorization
        rw [hc]
        simp
      refine ⟨⟨fun _ => rfl, fun _ => happ⟩, fun df' h => ?_⟩
      rw [happ] at h
      cases h
  | true =>
      have hmem : "description".data ∈ df.cols := mem_iff_contains.mp hc
      obtain ⟨i, hi⟩ := idxOfName_of_mem hmem
      have hgc : df.getCol "description".data
          = some (df.rows.map (fun r => rowGet r i)) := by
        rw [getCol_eq, hi]
        rfl
      cases hmc : mapCells categorizeCell (df.rows.map (fun r => rowGet r i)) with
      | error e =>
          have happ : apply_categorization df = .error e := by
            unfold apply_categorization
            rw [hc]
            simp only [if_true]
            rw [hgc]
            simp only [hmc]
          refine ⟨⟨fun h => ?_, fun h => Bool.noConfusion h⟩, fun df' h => ?_⟩
          · rw [happ] at h
            have := mapCells_error_attr hmc
            rw [this] at h
            cases h
          · rw [happ] at h
            cases h
      | ok cats =>
          have hlen : (cats.map PyVal.vStr).length = df.rows.length := by
            simpa using mapCells_ok_length hmc
          have happ : apply_categorization df
              = .ok (df.setCol "category".data (cats.map PyVal.vStr)) := by
            unfold apply_categorization
            rw [hc]
            simp only [if_true]
            rw [hgc]
            simp only [hmc]
          refine ⟨⟨fun h => ?_, fun h => Bool.noConfusion h⟩, fun df' h => ?_⟩
          · rw [happ] at h
            cases h
          · rw [happ] at h
            cases h
            refine ⟨⟨cats.map PyVal.vStr, getCol_setCol_self hr hlen, ?_⟩,
              fun n hn => getCol_setCol_ne hr hlen hn, ?_⟩
            · intro v hv
              obtain ⟨c, hcm, rfl⟩ := List.mem_map.mp hv
              obtain ⟨w, hwmem, hw⟩ := mapCells_ok_mem hmc c hcm
              cases w with
              | vStr s =>
                  simp only [categorizeCell] at hw
                  cases hw
                  rcases categorize_transaction_range s with h | h | h <;> rw [h] <;> simp
              | vFloat q => exact Except.noConfusion hw
              | vInt z => exact Except.noConfusion hw
              | vDate d => exact Except.noConfusion hw
              | vNone => exact Except.noConfusion hw
            · cases hidx : df.colIdx "category".data with
              | some j => rw [setCol_eq_some hidx]; exact Or.inl rfl
              | none => rw [setCol_eq_none hidx]; exact Or.inr rfl

/-- C10 (witness): the contract at a concrete frame — a missing
`description` column raises `ValueError`, a present one yields only
flow-direction categories. -/
theorem apply_categorization_contract_witness :
    (apply_categorization ⟨["amount".data], [[PyVal.vFloat 5]]⟩ = .error .valueError
      ↔ (["amount".data] : List (List Char)).contains "description".data = false)
    ∧ (apply_categorization ⟨["description".data], [[PyVal.vStr "ATM Deposit".data]]⟩
        = .error .valueError
      ↔ (["description".data] : List (List Char)).contains "description".data = false) :=
  ⟨(apply_categorization_contract ⟨["amount".data], [[PyVal.vFloat 5]]⟩
      (by intro r hr; simp at hr; simp [hr])).1,
   (apply_categorization_contract ⟨["description".data], [[PyVal.vStr "ATM Deposit".data]]⟩
      (by intro r hr; simp at hr; simp [hr])).1⟩

/-- C8: a second run of either labeler on the collection it just labelled
reproduces it exactly: categorization is a pure function of the
(unchanged) description column, and the anomaly detector hands the fixed
seed `42` and the unchanged `amount` column to the model, so both
assignments repeat identically. -/
theorem relabeling_second_run_identical :
    (∀ df df', df.Rect → classify_transactions df = .ok df' →
      classify_transactions df' = .ok df')
    ∧ (∀ (forest : Nat → ℚ → List PyVal → List ℤ) (c : ℚ) (df df' : DF), df.Rect →
      detect_anomalies forest c df = .ok df' → detect_anomalies forest c df' = .ok df') := by
  constructor
  · intro df df' hr h
    unfold classify_transactions at h
    cases hi : df.colIdx "description".data with
    | none => rw [hi] at h; cases h
    | some i =>
        rw [hi] at h
        simp only at h
        cases h
        show classify_transactions (df.setCol "category".data (df.rows.map
            (fun r => PyVal.vStr (classifyKeyword (lowerStr (pyStrOfVal (rowGet r i)))))))
          = .ok (df.setCol "category".data (df.rows.map
            (fun r => PyVal.vStr (classifyKeyword (lowerStr (pyStrOfVal (rowGet r i)))))))
        have hlen : (df.rows.map
            (fun r => PyVal.vStr (classifyKeyword (lowerStr (pyStrOfVal (rowGet r i)))))).length
            = df.rows.length := by simp
        have hii : i < df.cols.length := idxOfName_lt hi
        have hne : "description".data ≠ "category".data := by decide
        -- the description column is at the same index in the output
        have hi' : (df.setCol "category".data (df.rows.map
            (fun r => PyVal.vStr (classifyKeyword (lowerStr (pyStrOfVal (rowGet r i))))))).colIdx
            "description".data = some i := by
          cases hidx : df.colIdx "category".data with
          | some j => rw [setCol_eq_some hidx]; exact hi
          | none => rw [setCol_eq_none hidx]; exact idxOfName_append_some hi
        -- the recomputed labels coincide with the first run's
        have hvals : (df.setCol "category".data (df.rows.map
            (fun r => PyVal.vStr (classifyKeyword (lowerStr (pyStrOfVal (rowGet r i))))))).rows.map
              (fun r => PyVal.vStr (classifyKeyword (lowerStr (pyStrOfVal (rowGet r i)))))
            = df.rows.map
              (fun r => PyVal.vStr (classifyKeyword (lowerStr (pyStrOfVal (rowGet r i))))) := by
          cases hidx : df.colIdx "category".data with
          | some j =>
              rw [setCol_eq_some hidx]
              simp only
              rw [List.map_zipWith]
              have hij : j ≠ i := idxOfName_ne (by decide) hidx hi
              rw [zipWith_congr_mem _
                (fun r _ => PyVal.vStr (classifyKeyword (lowerStr (pyStrOfVal (rowGet r i)))))
                df.rows _ (fun r _ v _ => by rw [rowGet_set_ne r j i v hij])]
              exact zipWith_map_left _ df.rows _ hlen
          | none =>
              rw [setCol_eq_none hidx]
              simp only
              rw [List.map_zipWith]
              rw [zipWith_congr_mem _
                (fun r _ => PyVal.vStr (classifyKeyword (lowerStr (pyStrOfVal (rowGet r i)))))
                df.rows _ (fun r hrm v _ => by
                  rw [rowGet_append_lt r v i (by rw [hr r hrm]; exact hii)])]
              exact zipWith_map_left _ df.rows _ hlen
        have hrun : classify_transactions (df.setCol "category".data (df.rows.map
            (fun r => PyVal.vStr (classifyKeyword (lowerStr (pyStrOfVal (rowGet r i)))))))
            = .ok ((df.setCol "category".data (df.rows.map
              (fun r => PyVal.vStr (classifyKeyword (lowerStr (pyStrOfVal (rowGet r i))))))).setCol
                "category".data ((df.setCol "category".data (df.rows.map
                  (fun r => PyVal.vStr (classifyKeyword (lowerStr (pyStrOfVal (rowGet r i))))))).rows.map
                  (fun r => PyVal.vStr (classifyKeyword (lowerStr (pyStrOfVal (rowGet r i))))))) := by
          unfold classify_transactions
          rw [hi']
        rw [hrun, hvals, setCol_setCol_self hr hlen]
  · intro forest c df df' hr h
    unfold detect_anomalies at h
    by_cases hemp : (df.rows.isEmpty || df.cols.isEmpty) = true
    · rw [if_pos hemp] at h
      cases h
      unfold detect_anomalies
      rw [if_pos hemp]
    · rw [if_neg hemp] at h
      cases hA : df.getCol "amount".data with
      | none => rw [hA] at h; simp only at h; cases h
      | some amounts =>
          rw [hA] at h
          simp only at h
          by_cases hlen : (forest 42 c amounts).length = df.rows.length
          · rw [if_pos hlen] at h
            cases h
            show detect_anomalies forest c (df.setCol "anomaly".data
                ((forest 42 c amounts).map PyVal.vInt))
              = .ok (df.setCol "anomaly".data ((forest 42 c amounts).map PyVal.vInt))
            have hplen : ((forest 42 c amounts).map PyVal.vInt).length = df.rows.length := by
              simpa using hlen
            rw [Bool.or_eq_true, not_or, Bool.not_eq_true, Bool.not_eq_true] at hemp
            obtain ⟨hrne, hcne⟩ := hemp
            have hrne' : df.rows ≠ [] := isEmpty_false_iff.mp hrne
            have hcne' : df.cols ≠ [] := isEmpty_false_iff.mp hcne
            have hrows' : (df.setCol "anomaly".data
                ((forest 42 c amounts).map PyVal.vInt)).rows.length = df.rows.length :=
              setCol_rows_length hplen
            have hremp : (df.setCol "anomaly".data
                ((forest 42 c amounts).map PyVal.vInt)).rows.isEmpty = false := by
              rw [isEmpty_false_iff]
              intro hnil
              rw [hnil] at hrows'
              exact hrne' (List.length_eq_zero.mp hrows'.symm)
            have hcemp : (df.setCol "anomaly".data
                ((forest 42 c amounts).map PyVal.vInt)).cols.isEmpty = false := by
              rw [isEmpty_false_iff]
              cases hidx : df.colIdx "anomaly".data with
              | some j => rw [setCol_eq_some hidx]; exact hcne'
              | none => rw [setCol_eq_none hidx]; simp
            have hA' : (df.setCol "anomaly".data
                ((forest 42 c amounts).map PyVal.vInt)).getCol "amount".data = some amounts := by
              rw [getCol_setCol_ne hr hplen (by decide), hA]
            unfold detect_anomalies
            rw [if_neg (by rw [hremp, hcemp]; simp)]
            simp only [hA']
            rw [if_pos (by rw [hrows']; exact hlen)]
            rw [setCol_setCol_self hr hplen]
          · rw [if_neg hlen] at h
            cases h

/-- C8 (witness): both second-run rules at concrete labelled frames. -/
theorem relabeling_second_run_identical_witness :
    classify_transactions
        ⟨["description".data, "category".data],
          [[PyVal.vStr "Rent payment".data, PyVal.vStr "rent".data]]⟩
      = .ok ⟨["description".data, "category".data],
          [[PyVal.vStr "Rent payment".data, PyVal.vStr "rent".data]]⟩
    ∧ detect_anomalies (fun _ _ xs => xs.map (fun _ => 1)) 0
        ⟨["amount".data, "anomaly".data], [[PyVal.vFloat 5, PyVal.vInt 1]]⟩
      = .ok ⟨["amount".data, "anomaly".data], [[PyVal.vFloat 5, PyVal.vInt 1]]⟩ :=
  ⟨relabeling_second_run_identical.1
      ⟨["description".data], [[PyVal.vStr "Rent payment".data]]⟩ _
      (by intro r hrm; simp at hrm; simp [hrm]) rfl,
   relabeling_second_run_identical.2 (fun _ _ xs => xs.map (fun _ => 1)) 0
      ⟨["amount".data], [[PyVal.vFloat 5]]⟩ _
      (by intro r hrm; simp at hrm; simp [hrm]) rfl⟩

/-! ### Grid-path theorems -/

/-- C4 (counterexample): with headers `["Date","Desc","Debit","Amount"]` an
explicit debit column is identified, yet the `Amount` column is still
split: the missing `credit` column is synthesized and the explicit debit
value `10.00` is overwritten by `45.00` from the parsed amount — the
claim's "only when no explicit debit or credit columns were identified"
fails. -/
theorem clean_synthesizes_despite_explicit_debit_cex :
    (clean_and_format_data
        [["Date".data, "Desc".data, "Debit".data, "Amount".data],
         ["01/01/2023".data, "X".data, "10.00".data, "-45.00".data]]).map
      (fun df => df.getCol "debit".data)
      = some (some [PyVal.vFloat 45])
    ∧ PyVal.vFloat 45 ≠ PyVal.vFloat 10 := by
  decide

/-- C4 (amended): when an `Amount` column is present, each missing
debit/credit column is created, and every row is split from the parsed
amount — overwriting explicitly detected columns too: a negative value
puts `abs(val)` in debit and `0.0` in credit, a non-negative one puts the
value in credit and `0.0` in debit.  The spec's example grid yields a
canonical row with debit 45.00 and credit 0.0. -/
theorem clean_amount_split_amended :
    (∀ di ci ai (r : List PyVal), di ≠ ci → di < r.length → ci < r.length →
      (amountVal (rowGet r ai) < 0 →
        rowGet (amountSplitRow di ci ai r) di = .vFloat (pyAbs (amountVal (rowGet r ai)))
        ∧ rowGet (amountSplitRow di ci ai r) ci = .vFloat 0)
      ∧ (¬amountVal (rowGet r ai) < 0 →
        rowGet (amountSplitRow di ci ai r) ci = .vFloat (amountVal (rowGet r ai))
        ∧ rowGet (amountSplitRow di ci ai r) di = .vFloat 0))
    ∧ clean_and_format_data
        [["Date".data, "Description".data, "Amount".data],
         ["01/01/2023".data, "Gas Bill".data, "-45.00".data]]
      = some ⟨["date".data, "description".data, "debit".data, "credit".data],
          [[PyVal.vDate ⟨2023, 1, 1⟩, PyVal.vStr "Gas Bill".data,
            PyVal.vFloat 45, PyVal.vFloat 0]]⟩ := by
  refine ⟨fun di ci ai r hne hdi hci => ?_, by decide⟩
  simp only [amountSplitRow]
  constructor
  · intro hneg
    rw [if_pos hneg]
    constructor
    · rw [rowGet_set_ne _ ci di _ (Ne.symm hne), rowGet_set_self _ _ _ hdi]
    · rw [rowGet_set_self _ _ _ (by rw [List.length_set]; exact hci)]
  · intro hpos
    rw [if_neg hpos]
    constructor
    · rw [rowGet_set_ne _ di ci _ hne, rowGet_set_self _ _ _ hci]
    · rw [rowGet_set_self _ _ _ (by rw [List.length_set]; exact hdi)]

/-- C4 (witness): the split rule applied to a concrete row with a negative
amount. -/
theorem clean_amount_split_amended_witness :
    rowGet (amountSplitRow 0 1 2
        [PyVal.vStr "x".data, PyVal.vStr "y".data, PyVal.vStr "-45.00".data]) 0
      = PyVal.vFloat (pyAbs (amountVal (rowGet
          [PyVal.vStr "x".data, PyVal.vStr "y".data, PyVal.vStr "-45.00".data] 2)))
    ∧ rowGet (amountSplitRow 0 1 2
        [PyVal.vStr "x".data, PyVal.vStr "y".data, PyVal.vStr "-45.00".data]) 1
      = PyVal.vFloat 0 :=
  (clean_amount_split_amended.1 0 1 2
      [PyVal.vStr "x".data, PyVal.vStr "y".data, PyVal.vStr "-45.00".data]
      (by decide) (by decide) (by decide)).1 (by decide)

/-! ### Forecasting theorems -/

/-- C6: the daily cash-flow series covers every day from the earliest to
the latest transaction day, in order, carrying each day's summed signed
amount (zero for a day with no transactions), and the forecast is exactly
`forecast_period` (default 30) pairs on consecutive days immediately
following the last historical day, with no gaps. -/
theorem forecast_daily_series_and_horizon (fit : List (ℤ × ℚ) → ℚ × ℚ)
    (h : Nat) (rows : List (ℤ × ℚ)) (hne : rows ≠ []) :
    ((dailyFlow rows).length = (maxDay rows - minDay rows).toNat + 1
      ∧ (∀ i (hi : i < (dailyFlow rows).length),
          (dailyFlow rows).get ⟨i, hi⟩ = (minDay rows + i, dailyTotals rows (minDay rows + i)))
      ∧ (∀ d : ℤ, rows.filter (fun p => p.1 = d) = [] → dailyTotals rows d = 0))
    ∧ ∃ fc, forecast_cash_flow fit h rows = some fc
        ∧ fc.length = h
        ∧ ∀ i (hi : i < fc.length), (fc.get ⟨i, hi⟩).1 = maxDay rows + 1 + i := by
  cases rows with
  | nil => exact absurd rfl hne
  | cons p ps =>
      constructor
      · refine ⟨by simp [dailyFlow], fun i hi => ?_, fun d hd => ?_⟩
        · simp only [dailyFlow] at hi ⊢
          simp [List.get_eq_getElem, List.getElem_map, List.getElem_range]
        · unfold dailyTotals
          rw [hd]
          rfl
      · refine ⟨(List.range h).map (fun (i : Nat) => (maxDay (p :: ps) + 1 + (i : ℤ),
          (fit (dailyFlow (p :: ps))).1 + ((i : ℚ) + 1) * (fit (dailyFlow (p :: ps))).2)),
          ?_, by simp, fun i hi => ?_⟩
        · simp only [forecast_cash_flow]
        · simp only [List.length_map] at hi
          simp [List.get_eq_getElem, List.getElem_map, List.getElem_range]

/-- C6 (witness): a 100-day series forecast with the default horizon yields
exactly 30 pairs. -/
theorem forecast_daily_series_and_horizon_witness :
    ∃ fc, forecast_cash_flow (fun _ => (0, 0)) forecastPeriodDefault
        ((List.range 100).map (fun i => ((i : ℤ), (1 : ℚ)))) = some fc
      ∧ fc.length = 30 := by
  obtain ⟨fc, hfc, hlen, _⟩ := (forecast_daily_series_and_horizon (fun _ => (0, 0))
    forecastPeriodDefault ((List.range 100).map (fun i => ((i : ℤ), (1 : ℚ))))
    (by simp; exact ⟨0, by norm_num⟩)).2
  exact ⟨fc, hfc, hlen⟩

/-! ### Column-detection facts for the date-dropping theorem -/

theorem detectStep_date {acc : Detected} {c n : List Char}
    (h : (detectStep acc c).date = some n) :
    acc.date = some n ∨ (n = c ∧ containsSub "date".data (lowerStr c) = true) := by
  simp only [detectStep] at h
  split at h
  next hc => exact Or.inr ⟨(Option.some.inj h).symm, hc⟩
  next =>
    split at h
    next => exact Or.inl h
    next =>
      split at h
      next => exact Or.inl h
      next =>
        split at h
        next => exact Or.inl h
        next =>
          split at h
          next => exact Or.inl h
          next => exact Or.inl h

theorem detectStep_debit {acc : Detected} {c n : List Char}
    (h : (detectStep acc c).debit = some n) :
    acc.debit = some n ∨ (n = c ∧ containsSub "date".data (lowerStr c) = false) := by
  simp only [detectStep] at h
  split at h
  next => exact Or.inl h
  next hc1 =>
    split at h
    next => exact Or.inl h
    next =>
      split at h
      next => exact Or.inr ⟨(Option.some.inj h).symm, Bool.not_eq_true _ ▸ hc1⟩
      next =>
        split at h
        next => exact Or.inl h
        next =>
          split at h
          next => exact Or.inl h
          next => exact Or.inl h

theorem detectStep_credit {acc : Detected} {c n : List Char}
    (h : (detectStep acc c).credit = some n) :
    acc.credit = some n ∨ (n = c ∧ containsSub "date".data (lowerStr c) = false) := by
  simp only [detectStep] at h
  split at h
  next => exact Or.inl h
  next hc1 =>
    split at h
    next => exact Or.inl h
    next =>
      split at h
      next => exact Or.inl h
      next =>
        split at h
        next => exact Or.inr ⟨(Option.some.inj h).symm, Bool.not_eq_true _ ▸ hc1⟩
        next =>
          split at h
          next => exact Or.inl h
          next => exact Or.inl h

theorem detectStep_bal {acc : Detected} {c n : List Char}
    (h : (detectStep acc c).bal = some n) :
    acc.bal = some n ∨ (n = c ∧ containsSub "date".data (lowerStr c) = false) := by
  simp only [detectStep] at h
  split at h
  next => exact Or.inl h
  next hc1 =>
    split at h
    next => exact Or.inl h
    next =>
      split at h
      next => exact Or.inl h
      next =>
        split at h
        next => exact Or.inl h
        next =>
          split at h
          next => exact Or.inr ⟨(Option.some.inj h).symm, Bool.not_eq_true _ ▸ hc1⟩
          next => exact Or.inl h

theorem detect_foldl_date : ∀ (cols : List (List Char)) (acc : Detected) (n : List Char),
    (cols.foldl detectStep acc).date = some n →
    acc.date = some n ∨ (n ∈ cols ∧ containsSub "date".data (lowerStr n) = true)
  | [], _, _, h => Or.inl h
  | c :: cs, acc, n, h => by
      rcases detect_foldl_date cs (detectStep acc c) n h with h' | ⟨hm, hq⟩
      · rcases detectStep_date h' with h'' | ⟨rfl, hq⟩
        · exact Or.inl h''
        · exact Or.inr ⟨by simp, hq⟩
      · exact Or.inr ⟨List.mem_cons_of_mem _ hm, hq⟩

theorem detect_foldl_debit : ∀ (cols : List (List Char)) (acc : Detected) (n : List Char),
    (cols.foldl detectStep acc).debit = some n →
    acc.debit = some n ∨ (n ∈ cols ∧ containsSub "date".data (lowerStr n) = false)
  | [], _, _, h => Or.inl h
  | c :: cs, acc, n, h => by
      rcases detect_foldl_debit cs (detectStep acc c) n h with h' | ⟨hm, hq⟩
      · rcases detectStep_debit h' with h'' | ⟨rfl, hq⟩
        · exact Or.inl h''
        · exact Or.inr ⟨by simp, hq⟩
      · exact Or.inr ⟨List.mem_cons_of_mem _ hm, hq⟩

theorem detect_foldl_credit : ∀ (cols : List (List Char)) (acc : Detected) (n : List Char),
    (cols.foldl detectStep acc).credit = some n →
    acc.credit = some n ∨ (n ∈ cols ∧ containsSub "date".data (lowerStr n) = false)
  | [], _, _, h => Or.inl h
  | c :: cs, acc, n, h => by
      rcases detect_foldl_credit cs (detectStep acc c) n h with h' | ⟨hm, hq⟩
      · rcases detectStep_credit h' with h'' | ⟨rfl, hq⟩
        · exact Or.inl h''
        · exact Or.inr ⟨by simp, hq⟩
      · exact Or.inr ⟨List.mem_cons_of_mem _ hm, hq⟩

theorem detect_foldl_bal : ∀ (cols : List (List Char)) (acc : Detected) (n : List Char),
    (cols.foldl detectStep acc).bal = some n →
    acc.bal = some n ∨ (n ∈ cols ∧ containsSub "date".data (lowerStr n) = false)
  | [], _, _, h => Or.inl h
  | c :: cs, acc, n, h => by
      rcases detect_foldl_bal cs (detectStep acc c) n h with h' | ⟨hm, hq⟩
      · rcases detectStep_bal h' with h'' | ⟨rfl, hq⟩
        · exact Or.inl h''
        · exact Or.inr ⟨by simp, hq⟩
      · exact Or.inr ⟨List.mem_cons_of_mem _ hm, hq⟩

theorem detect_date_spec {cols : List (List Char)} {dc : List Char}
    (h : (detect_columns cols).date = some dc) :
    dc ∈ cols ∧ containsSub "date".data (lowerStr dc) = true := by
  rcases detect_foldl_date cols ⟨none, none, none, none, none⟩ dc h with h' | hq
  · cases h'
  · exact hq

theorem detect_debit_no_date {cols : List (List Char)} {n : List Char}
    (h : (detect_columns cols).debit = some n) :
    containsSub "date".data (lowerStr n) = false := by
  rcases detect_foldl_debit cols ⟨none, none, none, none, none⟩ n h with h' | hq
  · cases h'
  · exact hq.2

theorem detect_credit_no_date {cols : List (List Char)} {n : List Char}
    (h : (detect_columns cols).credit = some n) :
    containsSub "date".data (lowerStr n) = false := by
  rcases detect_foldl_credit cols ⟨none, none, none, none, none⟩ n h with h' | hq
  · cases h'
  · exact hq.2

theorem detect_bal_no_date {cols : List (List Char)} {n : List Char}
    (h : (detect_columns cols).bal = some n) :
    containsSub "date".data (lowerStr n) = false := by
  rcases detect_foldl_bal cols ⟨none, none, none, none, none⟩ n h with h' | hq
  · cases h'
  · exact hq.2

theorem debitColOf_no_date {header : List (List Char)} {n : List Char}
    (h : debitColOf header = some n) :
    containsSub "date".data (lowerStr n) = false := by
  unfold debitColOf at h
  split at h
  · cases h
    decide
  · exact detect_debit_no_date h

theorem creditColOf_no_date {header : List (List Char)} {n : List Char}
    (h : creditColOf header = some n) :
    containsSub "date".data (lowerStr n) = false := by
  unfold creditColOf at h
  split at h
  · cases h
    decide
  · exact detect_credit_no_date h

/-! ### Pipeline-step column/cell facts -/

theorem setColAll_cols (df : DF) (n : List Char) (v : PyVal) :
    (df.setColAll n v).cols = appendColIfAbsent df.cols n := by
  unfold DF.setColAll appendColIfAbsent
  cases hidx : df.colIdx n with
  | some i =>
      have hmem : n ∈ df.cols := List.get?_mem (idxOfName_get _ _ _ hidx)
      simp [mem_iff_contains.mpr hmem, hmem]
  | none =>
      have hnm : n ∉ df.cols := idxOfName_none_iff.mp hidx
      have hcf : df.cols.contains n = false := by
        cases hcon : df.cols.contains n with
        | false => rfl
        | true => exact absurd (mem_iff_contains.mp hcon) hnm
      simp [hcf, hnm]

theorem mapCol_cols (df : DF) (n : List Char) (f : PyVal → PyVal) :
    (df.mapCol n f).cols = df.cols := by
  unfold DF.mapCol
  cases hidx : df.colIdx n with
  | some i => rfl
  | none => rfl

theorem cleanSplit_cols (header : List (List Char)) (rows0 : List (List PyVal)) :
    (cleanSplit header ⟨header, rows0⟩).cols = splitCols header := by
  unfold cleanSplit splitCols
  cases hA : hasAmountCol header with
  | false => simp
  | true =>
      simp only [if_true]
      have hc1 : (if pyFalsy (detect_columns header).debit then
          (DF.mk header rows0).setColAll "debit".data (.vFloat 0)
          else DF.mk header rows0).cols
          = (if pyFalsy (detect_columns header).debit then
            appendColIfAbsent header "debit".data else header) := by
        split
        · rw [setColAll_cols]
        · rfl
      have hc2 : ((if pyFalsy (detect_columns header).credit then
          (if pyFalsy (detect_columns header).debit then
            (DF.mk header rows0).setColAll "debit".data (.vFloat 0)
            else DF.mk header rows0).setColAll "credit".data (.vFloat 0)
          else (if pyFalsy (detect_columns header).debit then
            (DF.mk header rows0).setColAll "debit".data (.vFloat 0)
            else DF.mk header rows0))).cols
          = (if pyFalsy (detect_columns header).credit then
            appendColIfAbsent (if pyFalsy (detect_columns header).debit then
              appendColIfAbsent header "debit".data else header) "credit".data
            else (if pyFalsy (detect_columns header).debit then
              appendColIfAbsent header "debit".data else header)) := by
        split
        · rw [setColAll_cols, hc1]
        · exact hc1
      split
      next di ci ai hmatch => exact hc2
      next hmatch => exact hc2

theorem convNum_cols (c : Option (List Char)) (d : DF) : (convNum c d).cols = d.cols := by
  unfold convNum
  split
  · rw [mapCol_cols]
  · rfl

theorem cleanParseDates_cols (header : List (List Char)) (df : DF) :
    (cleanParseDates header df).cols = df.cols := by
  unfold cleanParseDates
  split
  · rw [mapCol_cols]
  · rfl

theorem cleanDropNa_cols (header : List (List Char)) (df : DF) :
    (cleanDropNa header df).cols = df.cols := by
  unfold cleanDropNa
  cases (detect_columns header).date with
  | none => rfl
  | some dc =>
      simp only
      split
      · cases df.colIdx dc with
        | some di => rfl
        | none => rfl
      · rfl

theorem mapCol_establish {df : DF} {n : List Char} {di : Nat} {f : PyVal → PyVal}
    {Q : PyVal → Prop} (hidx : df.colIdx n = some di)
    (hf : ∀ v, Q (f v)) (hnone : Q PyVal.vNone) :
    ∀ r' ∈ (df.mapCol n f).rows, Q (rowGet r' di) := by
  unfold DF.mapCol
  rw [hidx]
  intro r' hr'
  obtain ⟨r, hrm, rfl⟩ := List.mem_map.mp hr'
  by_cases hlen : di < r.length
  · rw [rowGet_set_self _ _ _ hlen]
    exact hf _
  · rw [rowGet_out_of_range]
    · exact hnone
    · rw [List.length_set]
      omega

theorem mapCol_preserve {df : DF} {n : List Char} {di : Nat} {f : PyVal → PyVal}
    {Q : PyVal → Prop} (hne : ∀ j, df.colIdx n = some j → j ≠ di)
    (hP : ∀ r ∈ df.rows, Q (rowGet r di)) :
    ∀ r' ∈ (df.mapCol n f).rows, Q (rowGet r' di) := by
  unfold DF.mapCol
  cases hidx : df.colIdx n with
  | none => exact hP
  | some j =>
      intro r' hr'
      obtain ⟨r, hrm, rfl⟩ := List.mem_map.mp hr'
      rw [rowGet_set_ne r j di _ (hne j hidx)]
      exact hP r hrm

theorem mem_appendColIfAbsent {cols : List (List Char)} {n m : List Char} (h : n ∈ cols) :
    n ∈ appendColIfAbsent cols m := by
  unfold appendColIfAbsent
  split
  · exact h
  · exact List.mem_append_left _ h

theorem mem_splitCols {header : List (List Char)} {n : List Char} (h : n ∈ header) :
    n ∈ splitCols header := by
  simp only [splitCols]
  split
  · split
    · refine mem_appendColIfAbsent ?_
      split
      · exact mem_appendColIfAbsent h
      · exact h
    · split
      · exact mem_appendColIfAbsent h
      · exact h
  · exact h

theorem convNum_preserve {c : Option (List Char)} {d : DF} {di : Nat} {dc : List Char}
    {Q : PyVal → Prop} (hdc : idxOfName d.cols dc = some di)
    (hdcdate : containsSub "date".data (lowerStr dc) = true)
    (hcname : ∀ n, c = some n → containsSub "date".data (lowerStr n) = false)
    (hP : ∀ r ∈ d.rows, Q (rowGet r di)) :
    ∀ r' ∈ (convNum c d).rows, Q (rowGet r' di) := by
  unfold convNum
  split
  next hcond =>
      cases c with
      | none => simp [pyFalsy] at hcond
      | some n =>
          refine mapCol_preserve (fun j hj => ?_) hP
          have hne : n ≠ dc := by
            intro e
            have hf := hcname n rfl
            rw [e] at hf
            exact Bool.noConfusion (hf.symm.trans hdcdate)
          exact idxOfName_ne hne hj hdc
  next => exact hP

/-- C1 (amended): in the grid ingestion path, whenever a date column was
detected, every row of the canonical DataFrame handed downstream carries a
successfully parsed date — rows whose date string failed to parse were
dropped by the `dropna` step.  (The text path keeps such records, see the
counterexample.)  The `Nodup` hypothesis rules out grids whose renamed
headers collide, where pandas label selection has no single-column
meaning. -/
theorem clean_output_rows_have_parsed_date
    (header : List (List Char)) (dataRows : List (List (List Char)))
    (dc : List Char) (df' : DF)
    (hdet : (detect_columns header).date = some dc)
    (hnd : ((splitCols header).map (renameName header)).Nodup)
    (hclean : clean_and_format_data (header :: dataRows) = some df') :
    ∀ r ∈ df'.rows, ∃ d, rowGet r ((df'.colIdx "date".data).getD 0) = PyVal.vDate d := by
  obtain ⟨hdcmem, hdcdate⟩ := detect_date_spec hdet
  have hdcne : dc ≠ [] := by
    intro e
    rw [e] at hdcdate
    exact Bool.noConfusion ((by decide :
      containsSub "date".data (lowerStr []) = false).symm.trans hdcdate)
  have hfalsy : pyFalsy (detect_columns header).date = false := by
    rw [hdet]
    cases hdc : dc with
    | nil => exact absurd hdc hdcne
    | cons a t => simp [pyFalsy, hdc]
  -- name the pipeline stages
  set df0 : DF := ⟨header, dataRows.map (fun r => r.map PyVal.vStr)⟩ with hdf0
  set df3 := cleanSplit header df0 with hdf3
  set df4 := cleanParseDates header df3 with hdf4
  set df5 := cleanParseNums header df4 with hdf5
  set df6 := cleanDropNa header df5 with hdf6
  have hC3 : df3.cols = splitCols header := cleanSplit_cols header _
  have hC4 : df4.cols = splitCols header := by rw [hdf4, cleanParseDates_cols, hC3]
  have hC5 : df5.cols = splitCols header := by
    rw [hdf5]
    unfold cleanParseNums
    rw [convNum_cols, convNum_cols, convNum_cols, hC4]
  have hC6 : df6.cols = splitCols header := by rw [hdf6, cleanDropNa_cols, hC5]
  -- dc's index in the (stable) column list
  have hdcmem' : dc ∈ splitCols header := mem_splitCols hdcmem
  obtain ⟨di, hdi⟩ := idxOfName_of_mem hdcmem'
  have hdi3 : df3.colIdx dc = some di := by
    unfold DF.colIdx
    rw [hC3]
    exact hdi
  have hpf : pyFalsy (some dc) = false := by
    cases hdc : dc with
    | nil => exact absurd hdc hdcne
    | cons a t => simp [pyFalsy]
  -- the date-conversion step and the invariant it establishes at column di
  have h4eq : df4 = df3.mapCol dc
      (fun v => match parse_date (pyStrOfVal v) with
        | some d => PyVal.vDate d
        | none => PyVal.vNone) := by
    rw [hdf4]
    unfold cleanParseDates
    rw [hdet]
    simp only [Option.getD_some]
    rw [if_pos (by rw [hpf, hC3]; simp [hdcmem'])]
  have hQ4 : ∀ r ∈ df4.rows,
      (rowGet r di = PyVal.vNone ∨ ∃ d, rowGet r di = PyVal.vDate d) := by
    rw [h4eq]
    refine mapCol_establish (Q := fun v => v = PyVal.vNone ∨ ∃ d, v = PyVal.vDate d)
      hdi3 (fun v => ?_) (Or.inl rfl)
    cases hpd : parse_date (pyStrOfVal v) with
    | some d => exact Or.inr ⟨d, by simp only [hpd]⟩
    | none => exact Or.inl (by simp only [hpd])
  -- numeric conversions touch other columns only
  have hQ5 : ∀ r ∈ df5.rows,
      (rowGet r di = PyVal.vNone ∨ ∃ d, rowGet r di = PyVal.vDate d) := by
    rw [hdf5]
    unfold cleanParseNums
    refine convNum_preserve (c := (detect_columns header).bal)
      (Q := fun v => v = PyVal.vNone ∨ ∃ d, v = PyVal.vDate d)
      (by rw [convNum_cols, convNum_cols, hC4]; exact hdi) hdcdate
      (fun n hn => detect_bal_no_date hn) ?_
    refine convNum_preserve (c := creditColOf header)
      (Q := fun v => v = PyVal.vNone ∨ ∃ d, v = PyVal.vDate d)
      (by rw [convNum_cols, hC4]; exact hdi) hdcdate
      (fun n hn => creditColOf_no_date hn) ?_
    refine convNum_preserve (c := debitColOf header)
      (Q := fun v => v = PyVal.vNone ∨ ∃ d, v = PyVal.vDate d)
      (by rw [hC4]; exact hdi) hdcdate
      (fun n hn => debitColOf_no_date hn) ?_
    exact hQ4
  -- dropna keeps precisely the rows with a parsed date
  have hrows6 : df6.rows = df5.rows.filter (fun r => rowGet r di != PyVal.vNone) := by
    rw [hdf6]
    unfold cleanDropNa
    simp only [hdet]
    rw [if_pos (by rw [hC5]; exact mem_iff_contains.mpr hdcmem')]
    have hdi5 : df5.colIdx dc = some di := by
      unfold DF.colIdx
      rw [hC5]
      exact hdi
    simp only [hdi5]
  have hQ6 : ∀ r ∈ df6.rows, ∃ d, rowGet r di = PyVal.vDate d := by
    intro r hr
    rw [hrows6, List.mem_filter] at hr
    rcases hQ5 r hr.1 with hnone | hd
    · exfalso
      have h2 := hr.2
      rw [hnone] at h2
      simp at h2
    · exact hd
  -- the output frame
  have hclean' : some (cleanReorder (cleanRename header (cleanDropNa header
      (cleanParseNums header (cleanParseDates header (cleanSplit header df0)))))) = some df' := by
    rw [hdf0]
    exact hclean
  have hdf' : df' = cleanReorder (cleanRename header df6) := by
    rw [hdf6, hdf5, hdf4, hdf3]
    exact (Option.some.inj hclean').symm
  -- the renamed columns and the position of "date"
  have hget : (splitCols header).get? di = some dc := idxOfName_get _ _ _ hdi
  have hrdc : renameName header dc = "date".data := by
    unfold renameName
    rw [if_pos hdet]
  have hgetR : ((splitCols header).map (renameName header)).get? di = some "date".data := by
    rw [List.get?_map, hget, Option.map_some', hrdc]
  have hidxC' : idxOfName ((splitCols header).map (renameName header)) "date".data = some di :=
    idxOfName_of_get_nodup hnd hgetR
  have hdatemem : "date".data ∈ (splitCols header).map (renameName header) :=
    List.get?_mem hgetR
  have hcolsR : (cleanRename header df6).cols = (splitCols header).map (renameName header) := by
    unfold cleanRename
    rw [hC6]
  have hrowsR : (cleanRename header df6).rows = df6.rows := rfl
  -- the reorder step: "date" is kept first and carries column di's cell
  have hkeep : canonCols.filter (fun c => (cleanRename header df6).cols.contains c)
      = "date".data :: (["description".data, "debit".data, "credit".data,
          "balance".data].filter (fun c => (cleanRename header df6).cols.contains c)) := by
    have hpos : ((cleanRename header df6).cols.contains "date".data) = true := by
      rw [hcolsR]
      exact mem_iff_contains.mpr hdatemem
    show List.filter _ ("date".data :: _) = _
    rw [List.filter_cons_of_pos hpos]
  intro r' hr'
  rw [hdf'] at hr' ⊢
  unfold cleanReorder at hr' ⊢
  simp only at hr' ⊢
  obtain ⟨r, hrm, rfl⟩ := List.mem_map.mp hr'
  rw [hrowsR] at hrm
  -- the index of "date" in the output columns is 0
  have hidxkeep : idxOfName (canonCols.filter
      (fun c => (cleanRename header df6).cols.contains c)) "date".data = some 0 := by
    rw [hkeep]
    simp [idxOfName]
  have hgdate : (cleanRename header df6).colIdx "date".data = some di := by
    unfold DF.colIdx
    rw [hcolsR]
    exact hidxC'
  obtain ⟨d, hd⟩ := hQ6 r hrm
  refine ⟨d, ?_⟩
  show rowGet ((canonCols.filter (fun c => (cleanRename header df6).cols.contains c)).map
      (fun c => rowGet r (((cleanRename header df6).colIdx c).getD 0)))
    ((idxOfName (canonCols.filter (fun c => (cleanRename header df6).cols.contains c))
      "date".data).getD 0) = PyVal.vDate d
  rw [hidxkeep, Option.getD_some, hkeep, List.map_cons]
  show rowGet r (((cleanRename header df6).colIdx "date".data).getD 0) = PyVal.vDate d
  rw [hgdate, Option.getD_some]
  exact hd

/-- C1 (witness): the grid-path date guarantee at the spec's example grid. -/
theorem clean_output_rows_have_parsed_date_witness :
    ∃ d, rowGet [PyVal.vDate ⟨2023, 1, 1⟩, PyVal.vStr "Gas Bill".data,
        PyVal.vFloat 45, PyVal.vFloat 0]
      (((DF.mk ["date".data, "description".data, "debit".data, "credit".data]
        [[PyVal.vDate ⟨2023, 1, 1⟩, PyVal.vStr "Gas Bill".data,
          PyVal.vFloat 45, PyVal.vFloat 0]]).colIdx "date".data).getD 0)
      = PyVal.vDate d :=
  clean_output_rows_have_parsed_date
    ["Date".data, "Description".data, "Amount".data]
    [["01/01/2023".data, "Gas Bill".data, "-45.00".data]]
    "Date".data
    (DF.mk ["date".data, "description".data, "debit".data, "credit".data]
      [[PyVal.vDate ⟨2023, 1, 1⟩, PyVal.vStr "Gas Bill".data,
        PyVal.vFloat 45, PyVal.vFloat 0]])
    (by decide) (by decide) (by decide)
    [PyVal.vDate ⟨2023, 1, 1⟩, PyVal.vStr "Gas Bill".data,
      PyVal.vFloat 45, PyVal.vFloat 0]
    (by decide)

end BankSpec
